import Mathlib

/-!
Verification of the documentation-snapshot build pipeline
(`makefile.js` and its change-detection variant).

The development shallowly embeds the script's data model and
operations:

* JavaScript values relevant to the Revision Manifest domain are the
  inductive `JSValue` (`undefined`, `null`, strings, string-keyed
  objects).  JS objects cannot hold duplicate keys; association lists
  with `Nodup` keys represent them, and `jsLookup` models property
  access (`a[k]`, yielding `undefined` when the key is absent).
* `deepEqual` is translated clause by clause from the source: the
  `typeof` guard, the `Object.keys` length check, and the key loop
  that recursively compares `a[k]` with `b[k]`.  `Object.keys` applied
  to `null` throws a `TypeError`; the embedding returns `none` there,
  so `deepEqual : JSValue → JSValue → Option Bool` with `none`
  standing for a thrown exception.
* The orchestration (`build`, `fetchLatestMeta`, `fetchCurrentMeta`,
  `fetchSHA`, `cloneRepo`, `generateJSON`, `rf`, `writeMeta`) is
  embedded as functions over an oracle environment `Env` describing
  the remote endpoints, the clone subprocess and the opaque extractor,
  producing an `Except`-result together with a list of performed
  effects (`Eff`).  Concurrent `Promise.all` fan-out is sequentialized
  in configuration order; every property proved below is insensitive
  to the cross-source interleaving (see the comments at `build`).
-/

/-- JavaScript values as far as the Revision Manifest domain needs them:
`undefined`, `null`, strings, and string-keyed objects. -/
inductive JSValue where
  | undefined : JSValue
  | null : JSValue
  | str : String → JSValue
  | obj : List (String × JSValue) → JSValue

/-- `typeof` on the embedded values.  Note `typeof null === "object"`. -/
def typeOf : JSValue → String
  | .undefined => "undefined"
  | .null => "object"
  | .str _ => "string"
  | .obj _ => "object"

/-- `Object.keys` of an object's field list (insertion order). -/
def jsKeys (fs : List (String × JSValue)) : List String :=
  fs.map Prod.fst

/-- Property access `o[k]`: the first binding for `k`, or `undefined`. -/
def jsLookup (fs : List (String × JSValue)) (k : String) : JSValue :=
  match fs.find? (fun p => p.1 == k) with
  | some p => p.2
  | none => .undefined

/-- JS strict equality `===` on primitive values.  This models the final
`if (a !== b)` test of `deepEqual`; the two `typeof` guards before it
ensure both operands are primitives of the same type there (objects were
handled by the `typeof a === "object"` branch). -/
def strictEq (a b : JSValue) : Bool :=
  match a, b with
  | .undefined, .undefined => true
  | .null, .null => true
  | .str s, .str t => s == t
  | _, _ => false

theorem sizeOf_jsLookup (fs : List (String × JSValue)) (k : String) :
    jsLookup fs k = .undefined ∨ sizeOf (jsLookup fs k) < sizeOf fs := by
  induction fs with
  | nil => left; rfl
  | cons p rest ih =>
    by_cases h : p.1 == k
    · right
      simp only [jsLookup, List.find?, h]
      rcases p with ⟨a, v⟩
      simp only [Prod.mk.sizeOf_spec, List.cons.sizeOf_spec]
      omega
    · have hrw : jsLookup (p :: rest) k = jsLookup rest k := by
        simp only [jsLookup, List.find?, h]
      rw [hrw]
      rcases ih with h' | h'
      · left; exact h'
      · right
        rcases p with ⟨a, v⟩
        simp only [List.cons.sizeOf_spec]
        omega

theorem one_le_sizeOf_list (l : List (String × JSValue)) : 1 ≤ sizeOf l := by
  cases l with
  | nil => simp
  | cons a l => simp only [List.cons.sizeOf_spec]; omega

mutual

/-- The Change Detector's `deepEqual`, translated from the source:

```js
function deepEqual(a, b) {
  if (typeof a !== typeof b) { return false }
  if (typeof a === "object") {
    const m = Object.keys(a)
    const n = Object.keys(b)
    if (m.length !== n.length) { return false }
    for (const k of m) {
      const x = a[k]
      const y = b[k]
      if (!deepEqual(x, y)) { return false }
    }
    return true
  }
  if (a !== b) { return false }
  return true
}
```

`none` models a thrown `TypeError`: when both sides have
`typeof === "object"` but one of them is `null`, `Object.keys` throws.
(The remaining `_ , _` cases of that match are unreachable: the two
`typeof` guards leave only `obj`/`null` combinations.) -/
def deepEqual (a b : JSValue) : Option Bool :=
  if typeOf a ≠ typeOf b then
    some false
  else if typeOf a = "object" then
    match a, b with
    | .obj fs, .obj gs =>
      if (jsKeys fs).length ≠ (jsKeys gs).length then
        some false
      else
        deepEqualLoop fs gs (jsKeys fs)
    | _, _ => none
  else
    some (strictEq a b)
termination_by (sizeOf a, 0)
decreasing_by
  apply Prod.Lex.left
  simp only [JSValue.obj.sizeOf_spec]
  omega

/-- The `for (const k of m)` loop of `deepEqual`, short-circuiting on the
first `false` (and propagating a thrown `TypeError` as `none`). -/
def deepEqualLoop (fs gs : List (String × JSValue)) (ks : List String) :
    Option Bool :=
  match ks with
  | [] => some true
  | k :: rest =>
    match deepEqual (jsLookup fs k) (jsLookup gs k) with
    | none => none
    | some false => some false
    | some true => deepEqualLoop fs gs rest
termination_by (sizeOf fs, ks.length + 1)
decreasing_by
  · rcases sizeOf_jsLookup fs k with h | h
    · rw [h]
      rcases Nat.lt_or_ge 1 (sizeOf fs) with h2 | h2
      · apply Prod.Lex.left
        simpa using h2
      · have hfs : sizeOf fs = 1 :=
          Nat.le_antisymm h2 (one_le_sizeOf_list fs)
        have : sizeOf (JSValue.undefined) = 1 := by simp
        rw [this, ← hfs]
        apply Prod.Lex.right
        omega
    · apply Prod.Lex.left
      exact h
  · apply Prod.Lex.right
    simp

end

/-- A Revision Manifest branch record: repository name → revision
identifier (the `MetaBranch` typedef of the source). -/
abbrev MetaBranch := List (String × String)

/-- A Revision Manifest: branch name → branch record (the `Meta`
typedef of the source).  A well-formed manifest (`MetaWF`) has no
duplicate keys at either level, exactly as a JS object cannot. -/
abbrev Meta := List (String × MetaBranch)

/-- The JS object a branch record denotes. -/
def metaBranchToJS (r : MetaBranch) : JSValue :=
  .obj (r.map fun q => (q.1, .str q.2))

/-- The JS object a Revision Manifest denotes. -/
def metaToJS (m : Meta) : JSValue :=
  .obj (m.map fun p => (p.1, metaBranchToJS p.2))

/-- Well-formedness: unique keys at both levels (JS objects cannot hold
duplicate keys). -/
def MetaWF (m : Meta) : Prop :=
  (m.map Prod.fst).Nodup ∧ ∀ p ∈ m, (p.2.map Prod.fst).Nodup

/-- The specification's manifest equality: identical key sets at both
levels (in any key order) and identical leaf strings, phrased through
lookups. -/
def MetaEquiv (A B : Meta) : Prop :=
  (∀ b, (List.lookup b A).isSome = (List.lookup b B).isSome) ∧
  (∀ b rA rB, List.lookup b A = some rA → List.lookup b B = some rB →
     ∀ k, List.lookup k rA = List.lookup k rB)

theorem jsLookup_cons (a : String) (v : JSValue)
    (fs : List (String × JSValue)) (k : String) :
    jsLookup ((a, v) :: fs) k = if a == k then v else jsLookup fs k := by
  by_cases h : (a == k) = true
  · rw [if_pos h]
    unfold jsLookup
    rw [List.find?_cons_of_pos _ (by simpa using h)]
  · rw [if_neg h]
    unfold jsLookup
    rw [List.find?_cons_of_neg _ (by simpa using h)]

theorem jsLookup_map_snd {β : Type} (f : β → JSValue)
    (r : List (String × β)) (k : String) :
    jsLookup (r.map fun q => (q.1, f q.2)) k =
      match List.lookup k r with
      | some v => f v
      | none => JSValue.undefined := by
  induction r with
  | nil => rfl
  | cons q rest ih =>
    rcases q with ⟨a, v⟩
    rw [List.map_cons, jsLookup_cons, List.lookup_cons]
    by_cases h : k = a
    · subst h
      simp
    · have h1 : (a == k) = false := by simp [Ne.symm h]
      have h2 : (k == a) = false := by simp [h]
      rw [h1, h2]
      simpa using ih

theorem lookup_isSome_iff {β : Type} (l : List (String × β)) (k : String) :
    (List.lookup k l).isSome ↔ k ∈ l.map Prod.fst := by
  induction l with
  | nil => simp [List.lookup]
  | cons q rest ih =>
    rcases q with ⟨a, v⟩
    rw [List.lookup_cons]
    by_cases h : k = a
    · subst h
      simp
    · have h2 : (k == a) = false := by simp [h]
      rw [h2]
      simpa [h] using ih

theorem mem_of_lookup_eq_some {β : Type} {l : List (String × β)}
    {k : String} {v : β} (h : List.lookup k l = some v) : (k, v) ∈ l := by
  induction l with
  | nil => simp [List.lookup] at h
  | cons q rest ih =>
    rcases q with ⟨a, w⟩
    rw [List.lookup_cons] at h
    by_cases hk : k = a
    · subst hk
      simp at h
      simp [h]
    · have h2 : (k == a) = false := by simp [hk]
      rw [h2] at h
      simp [ih h]

theorem mem_of_nodup_subset_length_eq {l₁ l₂ : List String}
    (h₁ : l₁.Nodup) (h₂ : l₂.Nodup) (hsub : ∀ x ∈ l₁, x ∈ l₂)
    (hlen : l₁.length = l₂.length) : ∀ x ∈ l₂, x ∈ l₁ := by
  intro x hx
  have hfs : l₁.toFinset ⊆ l₂.toFinset := by
    intro y hy
    rw [List.mem_toFinset] at hy ⊢
    exact hsub y hy
  have hcard : l₂.toFinset.card ≤ l₁.toFinset.card := by
    rw [List.toFinset_card_of_nodup h₁, List.toFinset_card_of_nodup h₂]
    omega
  have heq := Finset.eq_of_subset_of_card_le hfs hcard
  rw [← List.mem_toFinset, ← heq, List.mem_toFinset] at hx
  exact hx

theorem length_eq_of_nodup_mem_iff {l₁ l₂ : List String}
    (h₁ : l₁.Nodup) (h₂ : l₂.Nodup) (hmem : ∀ x, x ∈ l₁ ↔ x ∈ l₂) :
    l₁.length = l₂.length := by
  have heq : l₁.toFinset = l₂.toFinset := by
    apply Finset.ext
    intro x
    rw [List.mem_toFinset, List.mem_toFinset]
    exact hmem x
  rw [← List.toFinset_card_of_nodup h₁, ← List.toFinset_card_of_nodup h₂, heq]

theorem deepEqual_str_str (s t : String) :
    deepEqual (.str s) (.str t) = some (s == t) := by
  simp [deepEqual, typeOf, strictEq]

theorem deepEqual_undefined_undefined :
    deepEqual .undefined .undefined = some true := by
  simp [deepEqual, typeOf, strictEq]

theorem deepEqual_str_undefined (s : String) :
    deepEqual (.str s) .undefined = some false := by
  simp [deepEqual, typeOf]

theorem deepEqual_undefined_str (s : String) :
    deepEqual .undefined (.str s) = some false := by
  simp [deepEqual, typeOf]

theorem deepEqual_obj_undefined (fs : List (String × JSValue)) :
    deepEqual (.obj fs) .undefined = some false := by
  simp [deepEqual, typeOf]

theorem deepEqual_undefined_obj (gs : List (String × JSValue)) :
    deepEqual .undefined (.obj gs) = some false := by
  simp [deepEqual, typeOf]

theorem deepEqual_obj_obj (fs gs : List (String × JSValue)) :
    deepEqual (.obj fs) (.obj gs) =
      if fs.length ≠ gs.length then some false
      else deepEqualLoop fs gs (fs.map Prod.fst) := by
  simp [deepEqual, typeOf, jsKeys]

theorem deepEqualLoop_char (fs gs : List (String × JSValue)) (ks : List String)
    (h : ∀ k ∈ ks, deepEqual (jsLookup fs k) (jsLookup gs k) ≠ none) :
    deepEqualLoop fs gs ks ≠ none ∧
    (deepEqualLoop fs gs ks = some true ↔
      ∀ k ∈ ks, deepEqual (jsLookup fs k) (jsLookup gs k) = some true) := by
  induction ks with
  | nil => simp [deepEqualLoop]
  | cons k rest ih =>
    have hk := h k (by simp)
    obtain ⟨ih1, ih2⟩ := ih (fun k' hk' => h k' (by simp [hk']))
    rcases hde : deepEqual (jsLookup fs k) (jsLookup gs k) with _ | b
    · exact absurd hde hk
    · rcases b with _ | _
      · constructor
        · simp [deepEqualLoop, hde]
        · simp [deepEqualLoop, hde]
      · constructor
        · simp [deepEqualLoop, hde, ih1]
        · simp only [deepEqualLoop, hde]
          rw [ih2]
          constructor
          · intro hall k' hk'
            rcases List.mem_cons.mp hk' with h' | h'
            · subst h'; exact hde
            · exact hall k' h'
          · intro hall k' hk'
            exact hall k' (by simp [hk'])

theorem keys_map_snd {β : Type} (f : β → JSValue) (r : List (String × β)) :
    (r.map fun q => (q.1, f q.2)).map Prod.fst = r.map Prod.fst := by
  induction r with
  | nil => rfl
  | cons q rest ih => simp [ih]

theorem deepEqual_branch_key_ne_none (r s : MetaBranch) (k : String) :
    deepEqual (jsLookup (r.map fun q => (q.1, JSValue.str q.2)) k)
      (jsLookup (s.map fun q => (q.1, JSValue.str q.2)) k) ≠ none := by
  rw [jsLookup_map_snd, jsLookup_map_snd]
  rcases List.lookup k r with _ | v <;> rcases List.lookup k s with _ | w <;>
    simp [deepEqual_str_str, deepEqual_undefined_undefined,
      deepEqual_str_undefined, deepEqual_undefined_str]

theorem deepEqual_branch_ne_none (r s : MetaBranch) :
    deepEqual (metaBranchToJS r) (metaBranchToJS s) ≠ none := by
  simp only [metaBranchToJS, deepEqual_obj_obj]
  by_cases hlen : (r.map fun q => (q.1, JSValue.str q.2)).length ≠
      (s.map fun q => (q.1, JSValue.str q.2)).length
  · rw [if_pos hlen]; simp
  · rw [if_neg hlen, keys_map_snd]
    exact (deepEqualLoop_char _ _ _
      (fun k _ => deepEqual_branch_key_ne_none r s k)).1

theorem deepEqual_branch_true_iff (r s : MetaBranch)
    (hr : (r.map Prod.fst).Nodup) (hs : (s.map Prod.fst).Nodup) :
    deepEqual (metaBranchToJS r) (metaBranchToJS s) = some true ↔
      ∀ k, List.lookup k r = List.lookup k s := by
  simp only [metaBranchToJS, deepEqual_obj_obj]
  constructor
  · intro h
    by_cases hlen : (r.map fun q => (q.1, JSValue.str q.2)).length ≠
        (s.map fun q => (q.1, JSValue.str q.2)).length
    · rw [if_pos hlen] at h; simp at h
    · rw [if_neg hlen, keys_map_snd] at h
      rw [List.length_map, List.length_map, not_ne_iff] at hlen
      have hloop := (deepEqualLoop_char _ _ _
        (fun k _ => deepEqual_branch_key_ne_none r s k)).2.mp h
      have hstep : ∀ k ∈ r.map Prod.fst,
          List.lookup k r = List.lookup k s ∧ (List.lookup k s).isSome := by
        intro k hk
        have h1 := hloop k hk
        rw [jsLookup_map_snd, jsLookup_map_snd] at h1
        rcases hlr : List.lookup k r with _ | v
        · have hmem := (lookup_isSome_iff r k).mpr hk
          rw [hlr] at hmem
          simp at hmem
        · rw [hlr] at h1
          rcases hls : List.lookup k s with _ | w
          · rw [hls] at h1
            rw [deepEqual_str_undefined] at h1
            simp at h1
          · rw [hls] at h1
            rw [deepEqual_str_str] at h1
            have hvw : v = w := by simpa using h1
            subst hvw
            exact ⟨rfl, rfl⟩
      have hsub : ∀ k ∈ r.map Prod.fst, k ∈ s.map Prod.fst := by
        intro k hk
        exact (lookup_isSome_iff s k).mp (hstep k hk).2
      have hsup := mem_of_nodup_subset_length_eq hr hs hsub (by simp [hlen])
      intro k
      by_cases hk : k ∈ r.map Prod.fst
      · exact (hstep k hk).1
      · have hk2 : k ∉ s.map Prod.fst := fun hc => hk (hsup k hc)
        have e1 : List.lookup k r = none := by
          rcases hlr : List.lookup k r with _ | v
          · rfl
          · exact absurd ((lookup_isSome_iff r k).mp (by simp [hlr])) hk
        have e2 : List.lookup k s = none := by
          rcases hls : List.lookup k s with _ | v
          · rfl
          · exact absurd ((lookup_isSome_iff s k).mp (by simp [hls])) hk2
        rw [e1, e2]
  · intro h
    have hmem : ∀ x, x ∈ r.map Prod.fst ↔ x ∈ s.map Prod.fst := by
      intro x
      rw [← lookup_isSome_iff, ← lookup_isSome_iff, h x]
    have hlen : r.length = s.length := by
      simpa using length_eq_of_nodup_mem_iff hr hs hmem
    rw [if_neg (by simp [hlen]), keys_map_snd]
    apply (deepEqualLoop_char _ _ _
      (fun k _ => deepEqual_branch_key_ne_none r s k)).2.mpr
    intro k hk
    rw [jsLookup_map_snd, jsLookup_map_snd]
    obtain ⟨v, hv⟩ := Option.isSome_iff_exists.mp ((lookup_isSome_iff r k).mpr hk)
    rw [hv, ← h k, hv, deepEqual_str_str]
    simp

theorem deepEqual_meta_key_ne_none (A B : Meta) (k : String) :
    deepEqual (jsLookup (A.map fun p => (p.1, metaBranchToJS p.2)) k)
      (jsLookup (B.map fun p => (p.1, metaBranchToJS p.2)) k) ≠ none := by
  rw [jsLookup_map_snd, jsLookup_map_snd]
  rcases List.lookup k A with _ | rA <;> rcases List.lookup k B with _ | rB
  · simp [deepEqual_undefined_undefined]
  · simp [metaBranchToJS, deepEqual_undefined_obj]
  · simp [metaBranchToJS, deepEqual_obj_undefined]
  · exact deepEqual_branch_ne_none rA rB

theorem deepEqual_meta_true_iff (A B : Meta) (hA : MetaWF A) (hB : MetaWF B) :
    deepEqual (metaToJS A) (metaToJS B) = some true ↔ MetaEquiv A B := by
  obtain ⟨hA1, hA2⟩ := hA
  obtain ⟨hB1, hB2⟩ := hB
  simp only [metaToJS, deepEqual_obj_obj]
  constructor
  · intro h
    by_cases hlen : (A.map fun p => (p.1, metaBranchToJS p.2)).length ≠
        (B.map fun p => (p.1, metaBranchToJS p.2)).length
    · rw [if_pos hlen] at h; simp at h
    · rw [if_neg hlen, keys_map_snd] at h
      rw [List.length_map, List.length_map, not_ne_iff] at hlen
      have hloop := (deepEqualLoop_char _ _ _
        (fun k _ => deepEqual_meta_key_ne_none A B k)).2.mp h
      have hstep : ∀ b ∈ A.map Prod.fst,
          ∃ rA rB, List.lookup b A = some rA ∧ List.lookup b B = some rB ∧
            deepEqual (metaBranchToJS rA) (metaBranchToJS rB) = some true := by
        intro b hb
        have h1 := hloop b hb
        rw [jsLookup_map_snd, jsLookup_map_snd] at h1
        rcases hlA : List.lookup b A with _ | rA
        · have hmem := (lookup_isSome_iff A b).mpr hb
          rw [hlA] at hmem
          simp at hmem
        · rw [hlA] at h1
          rcases hlB : List.lookup b B with _ | rB
          · rw [hlB] at h1
            simp only [metaBranchToJS] at h1
            rw [deepEqual_obj_undefined] at h1
            simp at h1
          · rw [hlB] at h1
            exact ⟨rA, rB, rfl, rfl, h1⟩
      have hsub : ∀ b ∈ A.map Prod.fst, b ∈ B.map Prod.fst := by
        intro b hb
        obtain ⟨rA, rB, _, hB', _⟩ := hstep b hb
        exact (lookup_isSome_iff B b).mp (by simp [hB'])
      have hsup := mem_of_nodup_subset_length_eq hA1 hB1 hsub (by simp [hlen])
      constructor
      · intro b
        by_cases hb : b ∈ A.map Prod.fst
        · obtain ⟨rA, rB, h1, h2, _⟩ := hstep b hb
          rw [h1, h2]
          rfl
        · have hb2 : b ∉ B.map Prod.fst := fun hc => hb (hsup b hc)
          have e1 : ¬ (List.lookup b A).isSome = true :=
            fun hc => hb ((lookup_isSome_iff A b).mp hc)
          have e2 : ¬ (List.lookup b B).isSome = true :=
            fun hc => hb2 ((lookup_isSome_iff B b).mp hc)
          rw [Bool.not_eq_true] at e1 e2
          rw [e1, e2]
      · intro b rA rB h1 h2 k
        have hb : b ∈ A.map Prod.fst := (lookup_isSome_iff A b).mp (by simp [h1])
        obtain ⟨rA', rB', h1', h2', h3'⟩ := hstep b hb
        rw [h1] at h1'
        rw [h2] at h2'
        obtain rfl : rA = rA' := Option.some.inj h1'
        obtain rfl : rB = rB' := Option.some.inj h2'
        have hrA : (rA.map Prod.fst).Nodup := hA2 (b, rA) (mem_of_lookup_eq_some h1)
        have hrB : (rB.map Prod.fst).Nodup := hB2 (b, rB) (mem_of_lookup_eq_some h2)
        exact (deepEqual_branch_true_iff rA rB hrA hrB).mp h3' k
  · rintro ⟨he1, he2⟩
    have hmem : ∀ x, x ∈ A.map Prod.fst ↔ x ∈ B.map Prod.fst := by
      intro x
      rw [← lookup_isSome_iff, ← lookup_isSome_iff, he1 x]
    have hlen : A.length = B.length := by
      simpa using length_eq_of_nodup_mem_iff hA1 hB1 hmem
    rw [if_neg (by simp [hlen]), keys_map_snd]
    apply (deepEqualLoop_char _ _ _
      (fun k _ => deepEqual_meta_key_ne_none A B k)).2.mpr
    intro b hb
    rw [jsLookup_map_snd, jsLookup_map_snd]
    obtain ⟨rA, h1⟩ := Option.isSome_iff_exists.mp ((lookup_isSome_iff A b).mpr hb)
    obtain ⟨rB, h2⟩ :=
      Option.isSome_iff_exists.mp ((lookup_isSome_iff B b).mpr ((hmem b).mp hb))
    rw [h1, h2]
    have hrA : (rA.map Prod.fst).Nodup := hA2 (b, rA) (mem_of_lookup_eq_some h1)
    have hrB : (rB.map Prod.fst).Nodup := hB2 (b, rB) (mem_of_lookup_eq_some h2)
    exact (deepEqual_branch_true_iff rA rB hrA hrB).mpr (he2 b rA rB h1 h2)

theorem deepEqual_metaToJS_isSome (A B : Meta) :
    (deepEqual (metaToJS A) (metaToJS B)).isSome := by
  simp only [metaToJS, deepEqual_obj_obj]
  by_cases hlen : (A.map fun p => (p.1, metaBranchToJS p.2)).length ≠
      (B.map fun p => (p.1, metaBranchToJS p.2)).length
  · rw [if_pos hlen]; rfl
  · rw [if_neg hlen, keys_map_snd]
    exact Option.ne_none_iff_isSome.mp
      ((deepEqualLoop_char _ _ _ (fun k _ => deepEqual_meta_key_ne_none A B k)).1)

theorem deepEqual_empty_vs_nonempty (B : Meta) (h : B ≠ []) :
    deepEqual (metaToJS []) (metaToJS B) = some false := by
  simp only [metaToJS, deepEqual_obj_obj]
  rw [if_pos]
  cases B with
  | nil => exact absurd rfl h
  | cons p rest => simp

theorem deepEqual_metaToJS_self (A : Meta) (hA : MetaWF A) :
    deepEqual (metaToJS A) (metaToJS A) = some true :=
  (deepEqual_meta_true_iff A A hA hA).mpr
    ⟨fun _ => rfl, fun _ rA rB h1 h2 k => by
      rw [h1] at h2
      obtain rfl : rA = rB := Option.some.inj h2
      rfl⟩

/-- C1: the Change Detector's structural equality is correct on Revision
Manifests.  For well-formed manifests `A`, `B` (two-level string-keyed
mappings to revision strings, no duplicate keys), `deepEqual` on their JS
denotations returns `true` exactly when the two manifests have identical
key sets at both levels (in any key order) and identical leaf strings
(`MetaEquiv`); whenever that fails — any leaf difference or any key
present in one side only — it returns `false`; and the empty mapping
compares `false` against every non-empty manifest. -/
theorem deepEqual_manifest_equality (A B : Meta) (hA : MetaWF A) (hB : MetaWF B) :
    (deepEqual (metaToJS A) (metaToJS B) = some true ↔ MetaEquiv A B) ∧
    (¬ MetaEquiv A B → deepEqual (metaToJS A) (metaToJS B) = some false) ∧
    (B ≠ [] → deepEqual (metaToJS []) (metaToJS B) = some false) := by
  refine ⟨deepEqual_meta_true_iff A B hA hB, ?_,
    fun h => deepEqual_empty_vs_nonempty B h⟩
  intro hne
  have hs := deepEqual_metaToJS_isSome A B
  rcases hv : deepEqual (metaToJS A) (metaToJS B) with _ | b
  · rw [hv] at hs
    simp at hs
  · rcases b with _ | _
    · rfl
    · exact absurd ((deepEqual_meta_true_iff A B hA hB).mp hv) hne

/-- Witness for C1 at the spec's example manifests. -/
theorem deepEqual_manifest_equality_witness :
    MetaWF [("main", [("r1", "abc123")])] ∧
    MetaWF [("main", [("r1", "zzz")])] ∧
    ((deepEqual (metaToJS [("main", [("r1", "abc123")])])
        (metaToJS [("main", [("r1", "zzz")])]) = some true ↔
      MetaEquiv [("main", [("r1", "abc123")])] [("main", [("r1", "zzz")])]) ∧
     (¬ MetaEquiv [("main", [("r1", "abc123")])] [("main", [("r1", "zzz")])] →
      deepEqual (metaToJS [("main", [("r1", "abc123")])])
        (metaToJS [("main", [("r1", "zzz")])]) = some false) ∧
     ([("main", [("r1", "zzz")])] ≠ ([] : Meta) →
      deepEqual (metaToJS ([] : Meta))
        (metaToJS [("main", [("r1", "zzz")])]) = some false)) :=
  ⟨by unfold MetaWF; decide, by unfold MetaWF; decide,
   deepEqual_manifest_equality _ _ (by unfold MetaWF; decide)
     (by unfold MetaWF; decide)⟩

/-- C10: `deepEqual` is total on well-formed Revision Manifests — on the
JS denotations of any two two-level string-keyed mappings with string
leaves it terminates (it is a Lean function) and returns a boolean (never
`none`, i.e. never throws) — whereas on arbitrary JSON values it is not
total: a `null` argument passes the `typeof` guard, reaches the object
branch and `Object.keys(null)` throws. -/
theorem deepEqual_total_on_manifests (A B : Meta) :
    (deepEqual (metaToJS A) (metaToJS B)).isSome ∧
    deepEqual JSValue.null (metaToJS A) = none :=
  ⟨deepEqual_metaToJS_isSome A B, by simp [deepEqual, typeOf, metaToJS]⟩

def hexDigit (n : Nat) : String :=
  String.singleton (if n < 10 then Char.ofNat (48 + n) else Char.ofNat (87 + n))

/-- The escape `JSON.stringify` applies to a single character. -/
def escapeJSONChar (ch : Char) : String :=
  if ch = '\"' then "\\\""
  else if ch = '\\' then "\\\\"
  else if ch = '\n' then "\\n"
  else if ch = '\r' then "\\r"
  else if ch = '\t' then "\\t"
  else if ch = Char.ofNat 8 then "\\b"
  else if ch = Char.ofNat 12 then "\\f"
  else if ch.toNat < 32 then
    "\\u00" ++ hexDigit (ch.toNat / 16) ++ hexDigit (ch.toNat % 16)
  else String.singleton ch

def quoteJSON (s : String) : String :=
  "\"" ++ String.join (s.toList.map escapeJSONChar) ++ "\""

def isUndef : JSValue → Bool
  | .undefined => true
  | _ => false

/-- `n` levels of the 2-space indent. -/
def indentN (n : Nat) : String := String.join (List.replicate n "  ")

theorem sizeOf_filter_le (p : String × JSValue → Bool)
    (l : List (String × JSValue)) : sizeOf (l.filter p) ≤ sizeOf l := by
  induction l with
  | nil => simp
  | cons a l ih =>
    by_cases h : p a <;> simp [List.filter_cons, h] <;> omega

mutual

/-- `JSON.stringify(v, undefined, 2)` at indent level `d`.  Properties
whose value is `undefined` are skipped; a top-level `undefined` (where
`JSON.stringify` yields no string at all) is mapped to `""` — manifest
values never reach either case. -/
def stringifyVal : JSValue → Nat → String
  | .undefined, _ => ""
  | .null, _ => "null"
  | .str s, _ => quoteJSON s
  | .obj fs, d =>
    let fs2 := fs.filter fun q => !(isUndef q.2)
    if fs2.isEmpty then "\x7b\x7d"
    else "\x7b\n" ++ stringifyFields fs2 (d + 1) ++ "\n" ++ indentN d ++ "\x7d"
termination_by v _ => sizeOf v
decreasing_by
  have h2 := sizeOf_filter_le (fun q => !(isUndef q.2)) fs
  simp only [JSValue.obj.sizeOf_spec]
  omega

/-- The comma-and-newline-separated property lines at indent level `d`. -/
def stringifyFields : List (String × JSValue) → Nat → String
  | [], _ => ""
  | [(k, x)], d => indentN d ++ quoteJSON k ++ ": " ++ stringifyVal x d
  | (k, x) :: q2 :: rest, d =>
    indentN d ++ quoteJSON k ++ ": " ++ stringifyVal x d ++ ",\n" ++
      stringifyFields (q2 :: rest) d
termination_by l _ => sizeOf l

end

/-- `JSON.stringify(v, undefined, 2)`. -/
def jsonStringify2 (v : JSValue) : String := stringifyVal v 0

/-- A Source Descriptor (the `ConfigSource` typedef). -/
structure ConfigSource where
  owner : String
  name : String
  branch : String
  entryPoint : String
deriving DecidableEq

/-- The remote-manifest location (the `ConfigMeta` typedef of the
change-detection variant). -/
structure ConfigMeta where
  owner : String
  name : String
  branch : String
  file : String
deriving DecidableEq

/-- The static configuration (the `Config` typedef). -/
structure Config where
  meta : ConfigMeta
  sources : List ConfigSource
deriving DecidableEq

/-- Filesystem paths as segment lists; `path.join(p, seg)` is `p ++ [seg]`. -/
abbrev FsPath := List String

def pathStr (p : FsPath) : String := String.intercalate "/" p

/-- The tool's own directory (`rootDir` resolves `import.meta.url`;
its actual location is irrelevant to every property below, so it is a
fixed abstract segment). -/
def rootDir : FsPath := ["root"]

/-- `distDir`. -/
def distDir (r : FsPath) : FsPath := r ++ ["dist"]

/-- The temporary directory `createTempDir` returns (`mkdtemp` of
`{os.tmpdir()}/{pack.name}-`; the fresh unique suffix is abstracted to a
fixed segment distinct from `rootDir` — collision-freedom across
concurrent runs is outside the model). -/
def createTempDir : FsPath := ["tmp"]

/-- Outcome of the spawned `git clone` subprocess: the `close` event
carrying the exit code, or the `error` (failed-to-spawn) event. -/
inductive CloneEvent where
  | close : Int → CloneEvent
  | errorEv : String → CloneEvent
deriving DecidableEq

/-- The oracle environment: the remote endpoints, the clone subprocess
and the opaque extractor, exactly the collaborators the spec declares
opaque.  `shaStatus`/`sha` describe the revision-lookup REST endpoint
per source (the 200-response JSON body's `commit.sha` field is
abstracted to the string `sha` returns); `currentStatus`/`currentBody`
describe the raw-content manifest endpoint (`currentBody` is the parsed
JSON of a 200 body); `cloneEvent` is the subprocess outcome per source;
`convertResult` is the typedoc outcome per source (`none` models
`a.convert()` yielding `undefined`, `some doc` the serialized project
document `generateJson` writes); `fsExists` is the `existsSync` state
of the output directories at the start of the run. -/
structure Env where
  shaStatus : ConfigSource → Nat
  sha : ConfigSource → String
  currentStatus : Nat
  currentBody : JSValue
  cloneEvent : ConfigSource → CloneEvent
  convertResult : ConfigSource → Option String
  fsExists : FsPath → Bool

/-- The observable effects of a run. -/
inductive Eff where
  | info : String → Eff
  | mkdirE : FsPath → Eff
  | mkdtempE : FsPath → Eff
  | spawnE : String → List String → Eff
  | writeFileE : FsPath → String → Eff
  | rmE : FsPath → Eff
  | rmdirE : FsPath → Eff
deriving DecidableEq

/-- `console.info` (the `createConsole` wrapper prepends `"info:"`). -/
def consoleInfo (s : String) : Eff := .info ("info: " ++ s)

/-- `fetchSHA`: HTTP GET of the branch endpoint; any status other than
200 throws an error naming the repository; 200 yields the body's
`commit.sha`. -/
def fetchSHA (e : Env) (s : ConfigSource) : Except String String :=
  if e.shaStatus s ≠ 200 then
    .error ("Failed to fetch commit SHA for " ++ s.name)
  else
    .ok (e.sha s)

/-- The synchronous first half of a `fetchLatestMeta` callback: read
`m[s.branch]` and install `{}` when it is `undefined`.  These halves
run, in configuration order, before any lookup response is awaited. -/
def ensureBranch (m : Meta) (b : String) : Meta :=
  match List.lookup b m with
  | some _ => m
  | none => m ++ [(b, [])]

/-- JS property assignment `r[k] = v` on a branch record: overwrite the
existing binding, or append a new one. -/
def setKV (r : MetaBranch) (k v : String) : MetaBranch :=
  if (List.lookup k r).isSome then
    r.map fun q => if q.1 == k then (k, v) else q
  else
    r ++ [(k, v)]

/-- The post-await half of a `fetchLatestMeta` callback:
`b[s.name] = sha` on the record installed for `s.branch`. -/
def setLeaf (m : Meta) (b n sha : String) : Meta :=
  m.map fun p => if p.1 == b then (p.1, setKV p.2 n sha) else p

/-- All the synchronous halves, in configuration order. -/
def initBranches (c : Config) : Meta :=
  c.sources.foldl (fun m s => ensureBranch m s.branch) []

/-- One awaited lookup of `fetchLatestMeta`. -/
def recordSHA (e : Env) (m : Meta) (s : ConfigSource) : Except String Meta :=
  match fetchSHA e s with
  | .error msg => .error msg
  | .ok sha => .ok (setLeaf m s.branch s.name sha)

/-- `fetchLatestMeta`: every branch record is installed synchronously
before any lookup is awaited (`initBranches`), then the awaited
`fetchSHA` results are assigned.  `Promise.all` rejects with the first
rejection; resolution order is modeled as configuration order (each
leaf targets its own `(branch, name)` slot, so the final mapping does
not depend on that order unless two descriptors share a slot — see the
C9 counterexample). -/
def fetchLatestMeta (e : Env) (c : Config) : Except String Meta :=
  c.sources.foldlM (recordSHA e) (initBranches c)

/-- `fetchCurrentMeta`: a non-200 response yields the empty mapping
rather than an error; a 200 response yields the parsed JSON body. -/
def fetchCurrentMeta (e : Env) : Except String JSValue :=
  if e.currentStatus ≠ 200 then
    .ok (.obj [])
  else
    .ok e.currentBody

/-- The `git clone` argument list built by `cloneRepo`. -/
def gitCloneArgs (d : FsPath) (s : ConfigSource) : List String :=
  ["clone", "--progress", "--depth", "1", "--branch", s.branch,
   "--single-branch",
   "https://github.com/" ++ s.owner ++ "/" ++ s.name ++ ".git", pathStr d]

/-- `cloneRepo`: spawn the clone subprocess; the returned promise is
resolved by the `close` handler with the exit code — whatever that code
is — and rejected only by the `error` (spawn-failure) handler:

```js
g.on("close", res)
g.on("error", rej)
``` -/
def cloneRepo (e : Env) (d : FsPath) (s : ConfigSource) :
    Except String Int × List Eff :=
  (match e.cloneEvent s with
   | .close code => .ok code
   | .errorEv msg => .error msg,
   [.spawnE "git" (gitCloneArgs d s)])

/-- `generateJSON`: the opaque typedoc extraction; a conversion that
yields no project throws `"Project is missing"`, otherwise the
serialized project document is written to `f`. -/
def generateJSON (e : Env) (s : ConfigSource) (f : FsPath) :
    Except String Unit × List Eff :=
  match e.convertResult s with
  | none => (.error "Project is missing", [])
  | some doc => (.ok (), [.writeFileE f doc])

/-- `rf`: recursive forced removal. -/
def rf (p : FsPath) : List Eff := [.rmE p]

/-- `writeMeta`: one write of the pretty-printed (2-space indent)
manifest JSON to `{dist}/{config.meta.file}`. -/
def writeMeta (c : Config) (d : FsPath) (m : Meta) : List Eff :=
  [.writeFileE (d ++ [c.meta.file]) (jsonStringify2 (metaToJS m))]

/-- One source's sub-pipeline inside the `Promise.all` fan-out of
`build`: reserve `td/branch` (`mkdir`), clone into it, ensure
`dist/branch` exists, extract into `dist/branch/name.json`, release
`td/branch` (`rf`).  A failure at any step aborts the rest of this
source's pipeline (in particular its own `rf`). -/
def runSource (e : Env) (dd td : FsPath) (s : ConfigSource) :
    Except String Unit × List Eff :=
  let st := td ++ [s.branch]
  let (cres, ceffs) := cloneRepo e st s
  match cres with
  | .error msg => (.error msg, [Eff.mkdirE st] ++ ceffs)
  | .ok _ =>
    let sd := dd ++ [s.branch]
    let effs1 := if e.fsExists sd then [] else [Eff.mkdirE sd]
    let (gres, geffs) := generateJSON e s (sd ++ [s.name ++ ".json"])
    match gres with
    | .error msg => (.error msg, [Eff.mkdirE st] ++ ceffs ++ effs1 ++ geffs)
    | .ok _ => (.ok (), [Eff.mkdirE st] ++ ceffs ++ effs1 ++ geffs ++ rf st)

/-- The first rejection of the `Promise.all` aggregate. -/
def firstError (rs : List (Except String Unit × List Eff)) : Option String :=
  rs.findSome? fun r =>
    match r.1 with
    | .error msg => some msg
    | .ok _ => none

/-- The `build` orchestrator of the change-detection variant, with the
cross-source concurrency sequentialized in configuration order: each
source's sub-pipeline trace appears as one contiguous block.  Every
property proved below is insensitive to that choice — the assertions
either concern effects of the main continuation (which in the source
runs strictly after the `Promise.all` join, or not at all when the
aggregate rejects) or are per-source facts about disjoint paths.  On a
rejection the siblings' traces are still included (`Promise.all` does
not cancel in-flight work).  A `TypeError` thrown by `deepEqual`
(possible only for non-object JSON in the published manifest) aborts
the run before any effect. -/
def build (e : Env) (c : Config) : Except String Unit × List Eff :=
  match fetchLatestMeta e c with
  | .error msg => (.error msg, [])
  | .ok latest =>
    match fetchCurrentMeta e with
    | .error msg => (.error msg, [])
    | .ok current =>
      match deepEqual current (metaToJS latest) with
      | none => (.error "TypeError", [])
      | some true => (.ok (), [consoleInfo "No updates"])
      | some false =>
        let dd := distDir rootDir
        let effs0 := if e.fsExists dd then [] else [Eff.mkdirE dd]
        let rs := c.sources.map (runSource e dd createTempDir)
        let seffs := (rs.map Prod.snd).flatten
        match firstError rs with
        | some msg =>
          (.error msg, effs0 ++ [Eff.mkdtempE createTempDir] ++ seffs)
        | none =>
          (.ok (), effs0 ++ [Eff.mkdtempE createTempDir] ++ seffs ++
            [Eff.rmdirE createTempDir] ++ writeMeta c dd latest)

/-- The manifest `fetchLatestMeta` produces when every lookup succeeds. -/
def latestMeta (e : Env) (c : Config) : Meta :=
  c.sources.foldl (fun m s => setLeaf m s.branch s.name (e.sha s))
    (initBranches c)

theorem foldlM_recordSHA_ok (e : Env) :
    ∀ (l : List ConfigSource) (m0 : Meta),
      (∀ s ∈ l, e.shaStatus s = 200) →
      l.foldlM (recordSHA e) m0 =
        .ok (l.foldl (fun m s => setLeaf m s.branch s.name (e.sha s)) m0) := by
  intro l
  induction l with
  | nil => intro m0 _; rfl
  | cons s rest ih =>
    intro m0 h
    have hs := h s (by simp)
    rw [List.foldlM_cons]
    have hrec : recordSHA e m0 s = .ok (setLeaf m0 s.branch s.name (e.sha s)) := by
      simp [recordSHA, fetchSHA, hs]
    rw [hrec, List.foldl_cons]
    exact ih _ (fun s' hs' => h s' (by simp [hs']))

theorem foldlM_recordSHA_error (e : Env) :
    ∀ (l : List ConfigSource) (m0 : Meta),
      (∃ s ∈ l, e.shaStatus s ≠ 200) →
      ∃ s', s' ∈ l ∧ e.shaStatus s' ≠ 200 ∧
        l.foldlM (recordSHA e) m0 =
          .error ("Failed to fetch commit SHA for " ++ s'.name) := by
  intro l
  induction l with
  | nil =>
    rintro m0 ⟨s, hs, _⟩
    simp at hs
  | cons s rest ih =>
    intro m0 hex
    by_cases hs : e.shaStatus s ≠ 200
    · refine ⟨s, by simp, hs, ?_⟩
      rw [List.foldlM_cons]
      have hrec : recordSHA e m0 s =
          .error ("Failed to fetch commit SHA for " ++ s.name) := by
        simp [recordSHA, fetchSHA, hs]
      rw [hrec]
      rfl
    · push_neg at hs
      obtain ⟨s0, hs0mem, hs0⟩ := hex
      have hs0mem2 : s0 ∈ rest := by
        rcases List.mem_cons.mp hs0mem with h | h
        · subst h; exact absurd hs (by simpa using hs0)
        · exact h
      obtain ⟨s', h1, h2, h3⟩ :=
        ih (setLeaf m0 s.branch s.name (e.sha s)) ⟨s0, hs0mem2, hs0⟩
      refine ⟨s', by simp [h1], h2, ?_⟩
      rw [List.foldlM_cons]
      have hrec : recordSHA e m0 s = .ok (setLeaf m0 s.branch s.name (e.sha s)) := by
        simp [recordSHA, fetchSHA, hs]
      rw [hrec]
      exact h3

theorem fetchLatestMeta_ok (e : Env) (c : Config)
    (h : ∀ s ∈ c.sources, e.shaStatus s = 200) :
    fetchLatestMeta e c = .ok (latestMeta e c) :=
  foldlM_recordSHA_ok e c.sources (initBranches c) h

theorem fetchLatestMeta_error (e : Env) (c : Config)
    (h : ∃ s ∈ c.sources, e.shaStatus s ≠ 200) :
    ∃ s', s' ∈ c.sources ∧ e.shaStatus s' ≠ 200 ∧
      fetchLatestMeta e c =
        .error ("Failed to fetch commit SHA for " ++ s'.name) :=
  foldlM_recordSHA_error e c.sources (initBranches c) h

theorem fetchLatestMeta_ok_inv (e : Env) (c : Config) (latest : Meta)
    (h : fetchLatestMeta e c = .ok latest) :
    (∀ s ∈ c.sources, e.shaStatus s = 200) ∧ latest = latestMeta e c := by
  by_cases hall : ∀ s ∈ c.sources, e.shaStatus s = 200
  · have h2 := fetchLatestMeta_ok e c hall
    rw [h] at h2
    exact ⟨hall, Except.ok.inj h2⟩
  · push_neg at hall
    obtain ⟨s0, h1, h2⟩ := hall
    obtain ⟨s', _, _, h3⟩ := fetchLatestMeta_error e c ⟨s0, h1, h2⟩
    rw [h] at h3
    exact absurd h3 (by simp)

theorem build_gate_true (e : Env) (c : Config) (latest : Meta) (current : JSValue)
    (hl : fetchLatestMeta e c = .ok latest)
    (hc : fetchCurrentMeta e = .ok current)
    (hg : deepEqual current (metaToJS latest) = some true) :
    build e c = (.ok (), [consoleInfo "No updates"]) := by
  simp [build, hl, hc, hg]

theorem build_lookup_error (e : Env) (c : Config) (msg : String)
    (hl : fetchLatestMeta e c = .error msg) :
    build e c = (.error msg, []) := by
  simp [build, hl]

theorem build_proceed_error (e : Env) (c : Config) (latest : Meta)
    (current : JSValue) (msg : String)
    (hl : fetchLatestMeta e c = .ok latest)
    (hc : fetchCurrentMeta e = .ok current)
    (hg : deepEqual current (metaToJS latest) = some false)
    (hfe : firstError (c.sources.map (runSource e (distDir rootDir) createTempDir)) =
      some msg) :
    build e c = (.error msg,
      (if e.fsExists (distDir rootDir) then [] else [Eff.mkdirE (distDir rootDir)]) ++
      [Eff.mkdtempE createTempDir] ++
      ((c.sources.map (runSource e (distDir rootDir) createTempDir)).map
        Prod.snd).flatten) := by
  simp [build, hl, hc, hg, hfe]

theorem build_proceed_ok (e : Env) (c : Config) (latest : Meta)
    (current : JSValue)
    (hl : fetchLatestMeta e c = .ok latest)
    (hc : fetchCurrentMeta e = .ok current)
    (hg : deepEqual current (metaToJS latest) = some false)
    (hfe : firstError (c.sources.map (runSource e (distDir rootDir) createTempDir)) =
      none) :
    build e c = (.ok (),
      (if e.fsExists (distDir rootDir) then [] else [Eff.mkdirE (distDir rootDir)]) ++
      [Eff.mkdtempE createTempDir] ++
      ((c.sources.map (runSource e (distDir rootDir) createTempDir)).map
        Prod.snd).flatten ++
      [Eff.rmdirE createTempDir] ++ writeMeta c (distDir rootDir) latest) := by
  simp [build, hl, hc, hg, hfe]

theorem runSource_clone_error (e : Env) (dd td : FsPath) (s : ConfigSource)
    (msg : String) (h : e.cloneEvent s = .errorEv msg) :
    runSource e dd td s = (.error msg,
      [Eff.mkdirE (td ++ [s.branch]),
       Eff.spawnE "git" (gitCloneArgs (td ++ [s.branch]) s)]) := by
  simp [runSource, cloneRepo, h]

theorem runSource_convert_missing (e : Env) (dd td : FsPath) (s : ConfigSource)
    (code : Int) (h1 : e.cloneEvent s = .close code)
    (h2 : e.convertResult s = none) :
    runSource e dd td s = (.error "Project is missing",
      [Eff.mkdirE (td ++ [s.branch]),
       Eff.spawnE "git" (gitCloneArgs (td ++ [s.branch]) s)] ++
      (if e.fsExists (dd ++ [s.branch]) then []
       else [Eff.mkdirE (dd ++ [s.branch])])) := by
  simp [runSource, cloneRepo, generateJSON, h1, h2]

theorem runSource_ok (e : Env) (dd td : FsPath) (s : ConfigSource)
    (code : Int) (doc : String) (h1 : e.cloneEvent s = .close code)
    (h2 : e.convertResult s = some doc) :
    runSource e dd td s = (.ok (),
      [Eff.mkdirE (td ++ [s.branch]),
       Eff.spawnE "git" (gitCloneArgs (td ++ [s.branch]) s)] ++
      (if e.fsExists (dd ++ [s.branch]) then []
       else [Eff.mkdirE (dd ++ [s.branch])]) ++
      [Eff.writeFileE ((dd ++ [s.branch]) ++ [s.name ++ ".json"]) doc,
       Eff.rmE (td ++ [s.branch])]) := by
  simp [runSource, cloneRepo, generateJSON, rf, h1, h2]

theorem runSource_ok_iff (e : Env) (dd td : FsPath) (s : ConfigSource) :
    (runSource e dd td s).1 = .ok () ↔
      (∃ code, e.cloneEvent s = .close code) ∧
      (∃ doc, e.convertResult s = some doc) := by
  rcases hc : e.cloneEvent s with code | msg
  · rcases hcv : e.convertResult s with _ | doc
    · rw [runSource_convert_missing e dd td s code hc hcv]
      simp [hc, hcv]
    · rw [runSource_ok e dd td s code doc hc hcv]
      simp [hc, hcv]
  · rw [runSource_clone_error e dd td s msg hc]
    simp [hc]

theorem runSource_no_rmdir (e : Env) (dd td : FsPath) (s : ConfigSource)
    (p : FsPath) : Eff.rmdirE p ∉ (runSource e dd td s).2 := by
  rcases hc : e.cloneEvent s with code | msg
  · rcases hcv : e.convertResult s with _ | doc
    · rw [runSource_convert_missing e dd td s code hc hcv]
      split <;> simp
    · rw [runSource_ok e dd td s code doc hc hcv]
      split <;> simp
  · rw [runSource_clone_error e dd td s msg hc]
    simp

theorem runSource_no_mkdtemp (e : Env) (dd td : FsPath) (s : ConfigSource)
    (p : FsPath) : Eff.mkdtempE p ∉ (runSource e dd td s).2 := by
  rcases hc : e.cloneEvent s with code | msg
  · rcases hcv : e.convertResult s with _ | doc
    · rw [runSource_convert_missing e dd td s code hc hcv]
      split <;> simp
    · rw [runSource_ok e dd td s code doc hc hcv]
      split <;> simp
  · rw [runSource_clone_error e dd td s msg hc]
    simp

theorem runSource_rm_only_temp (e : Env) (dd td : FsPath) (s : ConfigSource)
    (p : FsPath) :
    Eff.rmE p ∈ (runSource e dd td s).2 → p = td ++ [s.branch] := by
  rcases hc : e.cloneEvent s with code | msg
  · rcases hcv : e.convertResult s with _ | doc
    · rw [runSource_convert_missing e dd td s code hc hcv]
      split <;> simp
    · rw [runSource_ok e dd td s code doc hc hcv]
      split <;> simp
  · rw [runSource_clone_error e dd td s msg hc]
    simp

theorem runSource_ok_rm (e : Env) (dd td : FsPath) (s : ConfigSource)
    (h : (runSource e dd td s).1 = .ok ()) :
    Eff.rmE (td ++ [s.branch]) ∈ (runSource e dd td s).2 := by
  obtain ⟨⟨code, hc⟩, ⟨doc, hcv⟩⟩ := (runSource_ok_iff e dd td s).mp h
  rw [runSource_ok e dd td s code doc hc hcv]
  split <;> simp

theorem runSource_write_only_artifact (e : Env) (dd td : FsPath)
    (s : ConfigSource) (p : FsPath) (doc : String) :
    Eff.writeFileE p doc ∈ (runSource e dd td s).2 →
      p = (dd ++ [s.branch]) ++ [s.name ++ ".json"] ∧
      e.convertResult s = some doc := by
  rcases hc : e.cloneEvent s with code | msg
  · rcases hcv : e.convertResult s with _ | d
    · rw [runSource_convert_missing e dd td s code hc hcv]
      split <;> simp
    · rw [runSource_ok e dd td s code d hc hcv]
      split <;> simp [hcv] <;> rintro rfl rfl <;> simp
  · rw [runSource_clone_error e dd td s msg hc]
    simp

theorem firstError_eq_none_iff (rs : List (Except String Unit × List Eff)) :
    firstError rs = none ↔ ∀ r ∈ rs, r.1 = .ok () := by
  induction rs with
  | nil => simp [firstError]
  | cons r rest ih =>
    rw [firstError, List.findSome?_cons]
    rcases hr : r.1 with msg | u
    · simp [hr]
    · rcases u
      rw [firstError] at ih
      simp [hr, ih]

theorem firstError_cons_error (msg : String)
    (r : Except String Unit × List Eff)
    (rs : List (Except String Unit × List Eff)) (h : r.1 = .error msg) :
    firstError (r :: rs) = some msg := by
  rw [firstError, List.findSome?_cons, h]

/-- C2: whenever the freshly resolved manifest equals the published one
under `deepEqual`, `build` short-circuits: the run succeeds, the only
effect is the informational `"No updates"` message — no directory is
created (`mkdir`/`mkdtemp`), no clone is spawned, no file is written,
nothing is removed. -/
theorem build_no_updates_short_circuit (e : Env) (c : Config) (latest : Meta)
    (current : JSValue)
    (hl : fetchLatestMeta e c = .ok latest)
    (hc : fetchCurrentMeta e = .ok current)
    (he : deepEqual current (metaToJS latest) = some true) :
    build e c = (.ok (), [consoleInfo "No updates"]) ∧
    (∀ p, Eff.mkdirE p ∉ (build e c).2) ∧
    (∀ p, Eff.mkdtempE p ∉ (build e c).2) ∧
    (∀ cmd args, Eff.spawnE cmd args ∉ (build e c).2) ∧
    (∀ p doc, Eff.writeFileE p doc ∉ (build e c).2) ∧
    (∀ p, Eff.rmE p ∉ (build e c).2) ∧
    (∀ p, Eff.rmdirE p ∉ (build e c).2) := by
  have heq := build_gate_true e c latest current hl hc he
  rw [heq]
  exact ⟨rfl, by simp [consoleInfo], by simp [consoleInfo], by simp [consoleInfo],
    by simp [consoleInfo], by simp [consoleInfo], by simp [consoleInfo]⟩

/-- The spec's no-updates scenario: one source whose oracle returns
`"abc123"` again, prior manifest `{"main": {"r1": "abc123"}}`. -/
def srcC2 : ConfigSource := ⟨"o", "r1", "main", "src/index.ts"⟩

def cfgC2 : Config :=
  ⟨⟨"vanyauhalin", "onlyoffice-docspace-plugin-sdk-declarations", "dist",
    "meta.json"⟩, [srcC2]⟩

def latC2 : Meta := [("main", [("r1", "abc123")])]

def envC2 : Env :=
  ⟨fun _ => 200, fun _ => "abc123", 200, metaToJS latC2,
   fun _ => .close 0, fun _ => some "doc", fun _ => false⟩

/-- Witness for C2 at the spec's no-updates scenario. -/
theorem build_no_updates_short_circuit_witness :
    build envC2 cfgC2 = (.ok (), [consoleInfo "No updates"]) ∧
    (∀ p, Eff.mkdirE p ∉ (build envC2 cfgC2).2) ∧
    (∀ p, Eff.mkdtempE p ∉ (build envC2 cfgC2).2) ∧
    (∀ cmd args, Eff.spawnE cmd args ∉ (build envC2 cfgC2).2) ∧
    (∀ p doc, Eff.writeFileE p doc ∉ (build envC2 cfgC2).2) ∧
    (∀ p, Eff.rmE p ∉ (build envC2 cfgC2).2) ∧
    (∀ p, Eff.rmdirE p ∉ (build envC2 cfgC2).2) :=
  build_no_updates_short_circuit envC2 cfgC2 latC2 (metaToJS latC2)
    rfl rfl
    (deepEqual_metaToJS_self latC2 (by unfold MetaWF; decide))

/-- C7: retrieving the current published manifest never fails the run —
`fetchCurrentMeta` returns the parsed JSON body on HTTP 200 and the
empty mapping (rather than an error) on every other status. -/
theorem fetchCurrentMeta_never_fails (e : Env) :
    fetchCurrentMeta e =
      .ok (if e.currentStatus = 200 then e.currentBody else JSValue.obj []) := by
  unfold fetchCurrentMeta
  by_cases h : e.currentStatus = 200
  · simp [h]
  · simp [h]

/-- C6: a non-200 revision lookup fails `fetchSHA` with a message naming
the repository, and one failing lookup among the configured sources
aborts the whole run at the resolution stage: `build` returns that
lookup error with an empty effect trace — no clone is spawned, no
Output Artifact and no manifest is written. -/
theorem fetchSHA_failure_aborts_run (e : Env) (c : Config) (s : ConfigSource)
    (hs : s ∈ c.sources) (hfail : e.shaStatus s ≠ 200) :
    fetchSHA e s = .error ("Failed to fetch commit SHA for " ++ s.name) ∧
    (∃ s2, s2 ∈ c.sources ∧ e.shaStatus s2 ≠ 200 ∧
      build e c = (.error ("Failed to fetch commit SHA for " ++ s2.name), [])) ∧
    (∀ cmd args, Eff.spawnE cmd args ∉ (build e c).2) ∧
    (∀ p doc, Eff.writeFileE p doc ∉ (build e c).2) := by
  obtain ⟨s2, h1, h2, h3⟩ := fetchLatestMeta_error e c ⟨s, hs, hfail⟩
  have heq := build_lookup_error e c _ h3
  refine ⟨by simp [fetchSHA, hfail], ⟨s2, h1, h2, heq⟩, ?_, ?_⟩ <;>
    rw [heq] <;> simp

def srcC6a : ConfigSource := ⟨"o", "ra", "ba", "src/index.ts"⟩

def srcC6b : ConfigSource := ⟨"o", "rb", "bb", "src/index.ts"⟩

def srcC6c : ConfigSource := ⟨"o", "rc", "bc", "src/index.ts"⟩

def cfgC6 : Config :=
  ⟨⟨"m", "m", "dist", "meta.json"⟩, [srcC6a, srcC6b, srcC6c]⟩

/-- The spec's scenario: the oracle fails for exactly one of three
configured sources. -/
def envC6 : Env :=
  ⟨fun s => if s.name = "rb" then 404 else 200, fun _ => "sha",
   404, .obj [], fun _ => .close 0, fun _ => some "doc", fun _ => false⟩

/-- Witness for C6: the failing lookup of `srcC6b` aborts the run. -/
theorem fetchSHA_failure_aborts_run_witness :
    fetchSHA envC6 srcC6b =
      .error ("Failed to fetch commit SHA for " ++ srcC6b.name) ∧
    (∃ s2, s2 ∈ cfgC6.sources ∧ envC6.shaStatus s2 ≠ 200 ∧
      build envC6 cfgC6 =
        (.error ("Failed to fetch commit SHA for " ++ s2.name), [])) ∧
    (∀ cmd args, Eff.spawnE cmd args ∉ (build envC6 cfgC6).2) ∧
    (∀ p doc, Eff.writeFileE p doc ∉ (build envC6 cfgC6).2) :=
  fetchSHA_failure_aborts_run envC6 cfgC6 srcC6b (by decide) (by decide)

def srcC3 : ConfigSource :=
  ⟨"onlyoffice", "docspace-plugin-sdk", "master", "src/index.ts"⟩

def cfgC3 : Config :=
  ⟨⟨"vanyauhalin", "onlyoffice-docspace-plugin-sdk-declarations", "dist",
    "meta.json"⟩, [srcC3]⟩

def latC3 : Meta := [("master", [("docspace-plugin-sdk", "abc123")])]

/-- An environment whose clone subprocess exits with status 1 (a failed
clone). -/
def envC3 : Env :=
  ⟨fun _ => 200, fun _ => "abc123", 404, .obj [],
   fun _ => .close 1, fun _ => some "doc", fun _ => false⟩

/-- C3 counterexample: the clone subprocess exits with the nonzero
status 1, yet `cloneRepo` RESOLVES with that exit code — the source
registers `g.on("close", res)`, so the `close` handler resolves the
promise whatever the code is, and only the spawn-failure `error` event
rejects.  The source's sub-pipeline then proceeds into extraction and
the whole run succeeds, its artifact written — contradicting the claim
that a nonzero exit yields a `FetchFailure` rejecting the sub-pipeline
and aborting the run. -/
theorem cloneRepo_nonzero_exit_resolves :
    (cloneRepo envC3 (createTempDir ++ ["master"]) srcC3).1 = .ok 1 ∧
    (build envC3 cfgC3).1 = .ok () ∧
    Eff.writeFileE ((distDir rootDir ++ ["master"]) ++
      ["docspace-plugin-sdk.json"]) "doc" ∈ (build envC3 cfgC3).2 := by
  have hg : deepEqual (JSValue.obj []) (metaToJS latC3) = some false :=
    deepEqual_empty_vs_nonempty latC3 (by decide)
  have hfe : firstError
      (cfgC3.sources.map (runSource envC3 (distDir rootDir) createTempDir)) =
      none := by decide
  have heq := build_proceed_ok envC3 cfgC3 latC3 (.obj []) rfl rfl hg hfe
  rw [heq]
  refine ⟨rfl, rfl, ?_⟩
  decide

/-- C3 (amended): `cloneRepo` fails exactly on the spawn-failure `error`
event, whereas a `close` event with any exit status, nonzero included,
resolves the promise with that code and the pipeline continues; and for
EVERY configured Source Descriptor — wherever it sits in the
configuration — a spawn failure rejects that source's sub-pipeline
(`runSource` fails with the spawn error) and, through the aggregate
wait over all sources, aborts the whole run (`build` returns an
error). -/
theorem cloneRepo_failure_modes (e : Env) (d : FsPath) (s : ConfigSource) :
    (∀ msg, e.cloneEvent s = .errorEv msg → (cloneRepo e d s).1 = .error msg) ∧
    (∀ code, e.cloneEvent s = .close code → (cloneRepo e d s).1 = .ok code) ∧
    (∀ c latest current msg,
      fetchLatestMeta e c = .ok latest →
      fetchCurrentMeta e = .ok current →
      deepEqual current (metaToJS latest) = some false →
      s ∈ c.sources →
      e.cloneEvent s = .errorEv msg →
      (runSource e (distDir rootDir) createTempDir s).1 = .error msg ∧
      ∃ msg2, (build e c).1 = .error msg2) := by
  refine ⟨fun msg h => by simp [cloneRepo, h],
    fun code h => by simp [cloneRepo, h], ?_⟩
  intro c latest current msg hl hc hg hmem hev
  have hrs : (runSource e (distDir rootDir) createTempDir s).1 = .error msg := by
    rw [runSource_clone_error e _ _ s msg hev]
  refine ⟨hrs, ?_⟩
  rcases hfe : firstError
      (c.sources.map (runSource e (distDir rootDir) createTempDir)) with _ | m
  · have hall := (firstError_eq_none_iff _).mp hfe
    have hok := hall _ (List.mem_map_of_mem _ hmem)
    rw [hrs] at hok
    exact absurd hok (by simp)
  · exact ⟨m, by
      rw [build_proceed_error e c latest current m hl hc hg hfe]⟩

def srcC3a : ConfigSource := ⟨"o", "ra", "a", "src/index.ts"⟩

def srcC3b : ConfigSource := ⟨"o", "rb", "b", "src/index.ts"⟩

/-- Two sources; the SECOND one's clone subprocess fails to spawn. -/
def cfgC3two : Config := ⟨⟨"m", "m", "dist", "meta.json"⟩, [srcC3a, srcC3b]⟩

def envC3b : Env :=
  ⟨fun _ => 200, fun _ => "sha", 404, .obj [],
   fun s => if s.branch = "b" then .errorEv "spawn git ENOENT" else .close 0,
   fun _ => some "doc", fun _ => false⟩

def latC3two : Meta := [("a", [("ra", "sha")]), ("b", [("rb", "sha")])]

/-- Witness for the amended C3: the spawn failure of the second of two
configured sources rejects its sub-pipeline and aborts the whole run. -/
theorem cloneRepo_failure_modes_witness :
    (cloneRepo envC3b (createTempDir ++ ["b"]) srcC3b).1 =
      .error "spawn git ENOENT" ∧
    (runSource envC3b (distDir rootDir) createTempDir srcC3b).1 =
      .error "spawn git ENOENT" ∧
    ∃ msg2, (build envC3b cfgC3two).1 = .error msg2 :=
  ⟨(cloneRepo_failure_modes envC3b (createTempDir ++ ["b"]) srcC3b).1
      "spawn git ENOENT" rfl,
   (cloneRepo_failure_modes envC3b (createTempDir ++ ["b"]) srcC3b).2.2
      cfgC3two latC3two (.obj []) "spawn git ENOENT" rfl rfl
      (deepEqual_empty_vs_nonempty latC3two (by decide)) (by decide) rfl⟩

def srcC4a : ConfigSource := ⟨"o", "ra", "a", "src/index.ts"⟩

def srcC4b : ConfigSource := ⟨"o", "rb", "b", "src/index.ts"⟩

def cfgC4 : Config := ⟨⟨"m", "m", "dist", "meta.json"⟩, [srcC4a, srcC4b]⟩

def latC4 : Meta := [("a", [("ra", "sha")]), ("b", [("rb", "sha")])]

/-- Two sources, both pipelines succeed. -/
def envC4ok : Env :=
  ⟨fun _ => 200, fun _ => "sha", 404, .obj [],
   fun _ => .close 0, fun _ => some "doc", fun _ => false⟩

/-- Two sources, the first one's clone fails to spawn. -/
def envC4bad : Env :=
  ⟨fun _ => 200, fun _ => "sha", 404, .obj [],
   fun s => if s.branch = "a" then .errorEv "spawn git ENOENT" else .close 0,
   fun _ => some "doc", fun _ => false⟩

/-- C4 counterexample: with two concurrently building sources where the
first one's clone fails to spawn, the failing source's reserved
subdirectory is never released AND the workspace root is never
destroyed — `build` has no `try`/`finally`, so the `Promise.all`
rejection skips `rmdir(td)` entirely — while the sibling source's own
cleanup does run.  This contradicts the claim that the workspace root
is fully removed when a source fails mid-pipeline. -/
theorem build_sibling_failure_leaks_workspace :
    (build envC4bad cfgC4).1 = .error "spawn git ENOENT" ∧
    (∀ p, Eff.rmdirE p ∉ (build envC4bad cfgC4).2) ∧
    Eff.rmE (createTempDir ++ ["a"]) ∉ (build envC4bad cfgC4).2 ∧
    Eff.rmE (createTempDir ++ ["b"]) ∈ (build envC4bad cfgC4).2 := by
  have hg : deepEqual (JSValue.obj []) (metaToJS latC4) = some false :=
    deepEqual_empty_vs_nonempty latC4 (by decide)
  have hfe : firstError
      (cfgC4.sources.map (runSource envC4bad (distDir rootDir) createTempDir)) =
      some "spawn git ENOENT" := by decide
  have heq := build_proceed_error envC4bad cfgC4 latC4 (.obj [])
    "spawn git ENOENT" rfl rfl hg hfe
  rw [heq]
  refine ⟨rfl, ?_, by decide, by decide⟩
  intro p
  simp [srcC4a, srcC4b, cfgC4, envC4bad, runSource, cloneRepo, generateJSON, rf]

/-- C4 (amended): in every run that proceeds past the change gate and
succeeds, each reserved per-source subdirectory `td/branch` is released
(`rf`) strictly before the workspace root is destroyed — the one
`rmdir(td)` sits after all the source traces, followed only by the
manifest write — each source's cleanup lying in its own sub-pipeline
independently of its siblings.  (When a source fails, the original
claim is false: the root is not destroyed — see the counterexample.) -/
theorem build_success_workspace_cleanup (e : Env) (c : Config) (latest : Meta)
    (current : JSValue)
    (hl : fetchLatestMeta e c = .ok latest)
    (hc : fetchCurrentMeta e = .ok current)
    (hg : deepEqual current (metaToJS latest) = some false)
    (hok : (build e c).1 = .ok ()) :
    ∃ tr, (build e c).2 = tr ++ [Eff.rmdirE createTempDir,
        Eff.writeFileE (distDir rootDir ++ [c.meta.file])
          (jsonStringify2 (metaToJS latest))] ∧
      (∀ s ∈ c.sources, Eff.rmE (createTempDir ++ [s.branch]) ∈ tr) ∧
      (∀ p, Eff.rmdirE p ∉ tr) := by
  rcases hfe : firstError
      (c.sources.map (runSource e (distDir rootDir) createTempDir)) with _ | msg
  case some =>
    have heq := build_proceed_error e c latest current msg hl hc hg hfe
    rw [heq] at hok
    simp at hok
  case none =>
    have heq := build_proceed_ok e c latest current hl hc hg hfe
    rw [heq]
    refine ⟨(if e.fsExists (distDir rootDir) then []
        else [Eff.mkdirE (distDir rootDir)]) ++
      [Eff.mkdtempE createTempDir] ++
      ((c.sources.map (runSource e (distDir rootDir) createTempDir)).map
        Prod.snd).flatten, ?_, ?_, ?_⟩
    · simp [writeMeta]
    · intro s hs
      have hall := (firstError_eq_none_iff _).mp hfe
      have hok2 : (runSource e (distDir rootDir) createTempDir s).1 = .ok () :=
        hall _ (List.mem_map_of_mem _ hs)
      have hrm := runSource_ok_rm e (distDir rootDir) createTempDir s hok2
      simp only [List.mem_append]
      right
      rw [List.mem_flatten]
      exact ⟨(runSource e (distDir rootDir) createTempDir s).2,
        List.mem_map_of_mem Prod.snd (List.mem_map_of_mem _ hs), hrm⟩
    · intro p hp
      simp only [List.mem_append] at hp
      rcases hp with (h | h) | h
      · rcases hx : e.fsExists (distDir rootDir) with _ | _ <;>
          rw [hx] at h <;> simp at h
      · simp at h
      · rw [List.mem_flatten] at h
        obtain ⟨l, hl2, hmem⟩ := h
        rw [List.mem_map] at hl2
        obtain ⟨r, hr, rfl⟩ := hl2
        rw [List.mem_map] at hr
        obtain ⟨s, _, rfl⟩ := hr
        exact runSource_no_rmdir e (distDir rootDir) createTempDir s p hmem

/-- Witness for the amended C4: a two-source run where both pipelines
succeed; each `rm` of a reserved subdirectory precedes the one final
`rmdir` of the root. -/
theorem build_success_workspace_cleanup_witness :
    ∃ tr, (build envC4ok cfgC4).2 = tr ++ [Eff.rmdirE createTempDir,
        Eff.writeFileE (distDir rootDir ++ [cfgC4.meta.file])
          (jsonStringify2 (metaToJS latC4))] ∧
      (∀ s ∈ cfgC4.sources, Eff.rmE (createTempDir ++ [s.branch]) ∈ tr) ∧
      (∀ p, Eff.rmdirE p ∉ tr) :=
  build_success_workspace_cleanup envC4ok cfgC4 latC4 (.obj []) rfl rfl
    (deepEqual_empty_vs_nonempty latC4 (by decide))
    (by rw [build_proceed_ok envC4ok cfgC4 latC4 (.obj []) rfl rfl
          (deepEqual_empty_vs_nonempty latC4 (by decide)) (by decide)])

theorem build_gate_none (e : Env) (c : Config) (latest : Meta)
    (current : JSValue)
    (hl : fetchLatestMeta e c = .ok latest)
    (hc : fetchCurrentMeta e = .ok current)
    (hg : deepEqual current (metaToJS latest) = none) :
    build e c = (.error "TypeError", []) := by
  simp [build, hl, hc, hg]

theorem runSource_ok_write (e : Env) (dd td : FsPath) (s : ConfigSource)
    (code : Int) (doc : String) (h1 : e.cloneEvent s = .close code)
    (h2 : e.convertResult s = some doc) :
    Eff.writeFileE ((dd ++ [s.branch]) ++ [s.name ++ ".json"]) doc ∈
      (runSource e dd td s).2 := by
  rw [runSource_ok e dd td s code doc h1 h2]
  split <;> simp

/-- C5: manifest persistence is atomic with respect to failure.  On a
successful run either the change gate short-circuited (sole effect: the
"No updates" message) or the manifest file received the latest resolved
manifest and every source's Output Artifact was written; on every
aborted run the manifest path is never written, and nothing under the
output root is ever removed (all removals target the workspace), so
artifacts of sources that completed before the failure stay in place. -/
theorem build_manifest_atomicity (e : Env) (c : Config) :
    (∀ latest, fetchLatestMeta e c = .ok latest →
      (build e c).1 = .ok () →
      ((build e c).2 = [consoleInfo "No updates"] ∨
       (Eff.writeFileE (distDir rootDir ++ [c.meta.file])
          (jsonStringify2 (metaToJS latest)) ∈ (build e c).2 ∧
        ∀ s ∈ c.sources, ∃ doc, e.convertResult s = some doc ∧
          Eff.writeFileE ((distDir rootDir ++ [s.branch]) ++
            [s.name ++ ".json"]) doc ∈ (build e c).2))) ∧
    (∀ msg, (build e c).1 = .error msg →
      (∀ content, Eff.writeFileE (distDir rootDir ++ [c.meta.file]) content ∉
        (build e c).2) ∧
      (∀ p, Eff.rmE p ∈ (build e c).2 → ∃ b, p = createTempDir ++ [b]) ∧
      (∀ p, Eff.rmdirE p ∈ (build e c).2 → p = createTempDir)) := by
  rcases hl : fetchLatestMeta e c with msg0 | latest0
  · have heq := build_lookup_error e c msg0 hl
    constructor
    · intro latest hlat
      simp at hlat
    · intro msg _
      rw [heq]
      exact ⟨by simp, by simp, by simp⟩
  · have hc := fetchCurrentMeta_never_fails e
    rcases hg : deepEqual
        (if e.currentStatus = 200 then e.currentBody else JSValue.obj [])
        (metaToJS latest0) with _ | b
    · have heq := build_gate_none e c latest0 _ hl hc hg
      constructor
      · intro latest hlat hres
        rw [heq] at hres
        simp at hres
      · intro msg _
        rw [heq]
        exact ⟨by simp, by simp, by simp⟩
    · rcases b with _ | _
      · -- gate false: the pipeline proceeds
        rcases hfe : firstError
            (c.sources.map (runSource e (distDir rootDir) createTempDir))
            with _ | msg1
        · -- all sources succeeded
          have heq := build_proceed_ok e c latest0 _ hl hc hg hfe
          constructor
          · intro latest hlat _
            obtain rfl : latest0 = latest := Except.ok.inj hlat
            right
            rw [heq]
            constructor
            · simp [writeMeta]
            · intro s hs
              have hall := (firstError_eq_none_iff _).mp hfe
              have hok2 : (runSource e (distDir rootDir) createTempDir s).1 =
                  .ok () := hall _ (List.mem_map_of_mem _ hs)
              obtain ⟨⟨code, hc1⟩, ⟨doc, hc2⟩⟩ :=
                (runSource_ok_iff e (distDir rootDir) createTempDir s).mp hok2
              refine ⟨doc, hc2, ?_⟩
              have hw := runSource_ok_write e (distDir rootDir) createTempDir
                s code doc hc1 hc2
              simp only [List.mem_append]
              left; left; right
              rw [List.mem_flatten]
              exact ⟨(runSource e (distDir rootDir) createTempDir s).2,
                List.mem_map_of_mem Prod.snd (List.mem_map_of_mem _ hs), hw⟩
          · intro msg hres
            rw [heq] at hres
            simp at hres
        · -- some source failed: aborted run
          have heq := build_proceed_error e c latest0 _ msg1 hl hc hg hfe
          constructor
          · intro latest hlat hres
            rw [heq] at hres
            simp at hres
          · intro msg _
            rw [heq]
            refine ⟨?_, ?_, ?_⟩
            · intro content hcon
              simp only [List.mem_append] at hcon
              rcases hcon with (h | h) | h
              · rcases hx : e.fsExists (distDir rootDir) with _ | _ <;>
                  rw [hx] at h <;> simp at h
              · simp at h
              · rw [List.mem_flatten] at h
                obtain ⟨l, hl2, hmem⟩ := h
                rw [List.mem_map] at hl2
                obtain ⟨r, hr, rfl⟩ := hl2
                rw [List.mem_map] at hr
                obtain ⟨s, _, rfl⟩ := hr
                have := (runSource_write_only_artifact e (distDir rootDir)
                  createTempDir s _ content hmem).1
                apply_fun List.length at this
                simp [distDir, rootDir] at this
            · intro p hp
              simp only [List.mem_append] at hp
              rcases hp with (h | h) | h
              · rcases hx : e.fsExists (distDir rootDir) with _ | _ <;>
                  rw [hx] at h <;> simp at h
              · simp at h
              · rw [List.mem_flatten] at h
                obtain ⟨l, hl2, hmem⟩ := h
                rw [List.mem_map] at hl2
                obtain ⟨r, hr, rfl⟩ := hl2
                rw [List.mem_map] at hr
                obtain ⟨s, _, rfl⟩ := hr
                exact ⟨s.branch,
                  runSource_rm_only_temp e (distDir rootDir) createTempDir s p hmem⟩
            · intro p hp
              simp only [List.mem_append] at hp
              rcases hp with (h | h) | h
              · rcases hx : e.fsExists (distDir rootDir) with _ | _ <;>
                  rw [hx] at h <;> simp at h
              · simp at h
              · rw [List.mem_flatten] at h
                obtain ⟨l, hl2, hmem⟩ := h
                rw [List.mem_map] at hl2
                obtain ⟨r, hr, rfl⟩ := hl2
                rw [List.mem_map] at hr
                obtain ⟨s, _, rfl⟩ := hr
                exact absurd hmem
                  (runSource_no_rmdir e (distDir rootDir) createTempDir s p)
      · -- gate true: "No updates" short-circuit
        have heq := build_gate_true e c latest0 _ hl hc hg
        constructor
        · intro latest hlat _
          left
          rw [heq]
        · intro msg hres
          rw [heq] at hres
          simp at hres

/-- Leaf lookup `m[b][n]` on a manifest. -/
def lookup2 (m : Meta) (b n : String) : Option String :=
  match List.lookup b m with
  | some r => List.lookup n r
  | none => none

theorem lookup_append {β : Type} (l t : List (String × β)) (k : String) :
    List.lookup k (l ++ t) =
      match List.lookup k l with
      | some v => some v
      | none => List.lookup k t := by
  induction l with
  | nil => simp [List.lookup]
  | cons q rest ih =>
    rcases q with ⟨a, v⟩
    rw [List.cons_append, List.lookup_cons, List.lookup_cons]
    by_cases h : k = a
    · subst h
      simp
    · have h2 : (k == a) = false := by simp [h]
      rw [h2]
      exact ih

theorem lookup_map_overwrite (r : MetaBranch) (k v : String) :
    List.lookup k (r.map fun q => if q.1 == k then (k, v) else q) =
      (List.lookup k r).map (fun _ => v) := by
  induction r with
  | nil => simp [List.lookup]
  | cons q rest ih =>
    rcases q with ⟨a, w⟩
    simp only [List.map_cons]
    by_cases h : a = k
    · subst h
      have hhead : (if ((a, w).1 == a) = true then (a, v) else (a, w)) = (a, v) := by
        simp
      rw [hhead, List.lookup_cons, List.lookup_cons]
      simp
    · have hhead : (if ((a, w).1 == k) = true then (k, v) else (a, w)) = (a, w) := by
        simp [h]
      rw [hhead, List.lookup_cons, List.lookup_cons]
      have h2 : (k == a) = false := by simp [Ne.symm h]
      rw [h2]
      exact ih

theorem lookup_map_overwrite_ne (r : MetaBranch) (k v k' : String)
    (hne : k' ≠ k) :
    List.lookup k' (r.map fun q => if q.1 == k then (k, v) else q) =
      List.lookup k' r := by
  induction r with
  | nil => simp [List.lookup]
  | cons q rest ih =>
    rcases q with ⟨a, w⟩
    simp only [List.map_cons]
    by_cases h : a = k
    · subst h
      have hhead : (if ((a, w).1 == a) = true then (a, v) else (a, w)) = (a, v) := by
        simp
      rw [hhead, List.lookup_cons, List.lookup_cons]
      have h2 : (k' == a) = false := by simp [hne]
      rw [h2]
      exact ih
    · have hhead : (if ((a, w).1 == k) = true then (k, v) else (a, w)) = (a, w) := by
        simp [h]
      rw [hhead, List.lookup_cons, List.lookup_cons]
      by_cases h3 : k' = a
      · subst h3
        simp
      · have h4 : (k' == a) = false := by simp [h3]
        rw [h4]
        exact ih

theorem lookup_setKV (r : MetaBranch) (k v k' : String) :
    List.lookup k' (setKV r k v) = if k' = k then some v else List.lookup k' r := by
  unfold setKV
  by_cases hin : (List.lookup k r).isSome = true
  · rw [if_pos hin]
    by_cases h : k' = k
    · subst h
      rw [if_pos rfl, lookup_map_overwrite]
      obtain ⟨w, hw⟩ := Option.isSome_iff_exists.mp hin
      rw [hw]
      rfl
    · rw [if_neg h, lookup_map_overwrite_ne r k v k' h]
  · rw [if_neg hin, lookup_append]
    by_cases h : k' = k
    · subst h
      have hnone : List.lookup k' r = none := by
        rcases hx : List.lookup k' r with _ | w
        · rfl
        · rw [hx] at hin
          simp at hin
      rw [hnone, if_pos rfl]
      simp [List.lookup]
    · rw [if_neg h]
      rcases hx : List.lookup k' r with _ | w
      · have h2 : (k' == k) = false := by simp [h]
        simp [List.lookup, h2]
      · rfl

theorem lookup_map_valueUpdate {β : Type} (g : β → β) (b : String) :
    ∀ (m : List (String × β)) (b' : String),
    List.lookup b' (m.map fun p => if p.1 == b then (p.1, g p.2) else p) =
      if b' = b then (List.lookup b m).map g else List.lookup b' m := by
  intro m
  induction m with
  | nil => intro b'; simp [List.lookup]
  | cons p rest ih =>
    intro b'
    rcases p with ⟨a, w⟩
    simp only [List.map_cons]
    by_cases hab : a = b
    · have hhead : (if ((a, w).1 == b) = true then ((a, w).1, g (a, w).2)
          else (a, w)) = (a, g w) := by simp [hab]
      rw [hhead, List.lookup_cons]
      by_cases h : b' = a
      · have h2 : (b' == a) = true := by simp [h]
        rw [h2, if_pos (h.trans hab), List.lookup_cons]
        have h3 : (b == a) = true := by simp [hab]
        rw [h3]
        rfl
      · have h2 : (b' == a) = false := by simp [h]
        rw [h2, ih b']
        have h4 : ¬ b' = b := fun hc => h (hc.trans hab.symm)
        rw [if_neg h4, if_neg h4, List.lookup_cons, h2]
    · have hhead : (if ((a, w).1 == b) = true then ((a, w).1, g (a, w).2)
          else (a, w)) = (a, w) := by simp [hab]
      rw [hhead, List.lookup_cons]
      by_cases h : b' = a
      · have h2 : (b' == a) = true := by simp [h]
        rw [h2]
        have h4 : ¬ b' = b := fun hc => hab (h.symm.trans hc)
        rw [if_neg h4, List.lookup_cons, h2]
      · have h2 : (b' == a) = false := by simp [h]
        rw [h2, ih b']
        by_cases h4 : b' = b
        · rw [if_pos h4, if_pos h4, List.lookup_cons]
          have h5 : (b == a) = false := by simp [Ne.symm hab]
          rw [h5]
        · rw [if_neg h4, if_neg h4, List.lookup_cons, h2]

theorem lookup_setLeaf (m : Meta) (b n v b' : String) :
    List.lookup b' (setLeaf m b n v) =
      if b' = b then (List.lookup b m).map (fun r => setKV r n v)
      else List.lookup b' m := by
  unfold setLeaf
  exact lookup_map_valueUpdate (fun r => setKV r n v) b m b'

theorem isSome_lookup_setLeaf (m : Meta) (b n v b' : String) :
    (List.lookup b' (setLeaf m b n v)).isSome = (List.lookup b' m).isSome := by
  rw [lookup_setLeaf]
  by_cases h : b' = b
  · subst h
    simp
  · rw [if_neg h]

theorem lookup2_setLeaf (m : Meta) (b n v : String)
    (hb : (List.lookup b m).isSome = true) (b' n' : String) :
    lookup2 (setLeaf m b n v) b' n' =
      if b' = b ∧ n' = n then some v else lookup2 m b' n' := by
  obtain ⟨r, hr⟩ := Option.isSome_iff_exists.mp hb
  unfold lookup2
  rw [lookup_setLeaf]
  by_cases h : b' = b
  · subst h
    rw [if_pos rfl, hr]
    simp only [Option.map_some']
    rw [lookup_setKV]
    by_cases h2 : n' = n
    · simp [h2]
    · simp [h2, lookup2, hr]
  · rw [if_neg h, if_neg (by rintro ⟨rfl, _⟩; exact h rfl)]

theorem ensureBranch_lookup_isSome (m : Meta) (b b' : String) :
    (List.lookup b' (ensureBranch m b)).isSome = true ↔
      (List.lookup b' m).isSome = true ∨ b' = b := by
  unfold ensureBranch
  rcases hx : List.lookup b m with _ | r
  · rw [lookup_append]
    rcases hy : List.lookup b' m with _ | w
    · by_cases h : b' = b
      · subst h
        have h2 : (b' == b') = true := by simp
        simp [List.lookup, h2]
      · have h2 : (b' == b) = false := by simp [h]
        simp [List.lookup, h2, h]
    · simp
  · rcases hy : List.lookup b' m with _ | w
    · constructor
      · intro h
        exact absurd h (by simp)
      · rintro (h | rfl)
        · exact absurd h (by simp)
        · rw [hx] at hy
          exact absurd hy (by simp)
    · simp

theorem lookup2_ensureBranch (m : Meta) (b b' n : String) :
    lookup2 (ensureBranch m b) b' n = lookup2 m b' n := by
  unfold ensureBranch lookup2
  rcases hx : List.lookup b m with _ | r
  · rw [lookup_append]
    rcases hy : List.lookup b' m with _ | w
    · by_cases h : b' = b
      · subst h
        have h2 : (b' == b') = true := by simp
        simp [List.lookup, h2]
      · have h2 : (b' == b) = false := by simp [h]
        simp [List.lookup, h2]
    · rfl
  · rfl

theorem foldl_ensureBranch_isSome :
    ∀ (l : List ConfigSource) (m0 : Meta) (b : String),
    (List.lookup b (l.foldl (fun m s => ensureBranch m s.branch) m0)).isSome = true ↔
      (List.lookup b m0).isSome = true ∨ b ∈ l.map (fun s => s.branch) := by
  intro l
  induction l with
  | nil => intro m0 b; simp
  | cons s rest ih =>
    intro m0 b
    rw [List.foldl_cons, ih, ensureBranch_lookup_isSome]
    simp only [List.map_cons, List.mem_cons]
    tauto

theorem foldl_ensureBranch_lookup2 :
    ∀ (l : List ConfigSource) (m0 : Meta) (b n : String),
    lookup2 (l.foldl (fun m s => ensureBranch m s.branch) m0) b n =
      lookup2 m0 b n := by
  intro l
  induction l with
  | nil => intro m0 b n; rfl
  | cons s rest ih =>
    intro m0 b n
    rw [List.foldl_cons, ih, lookup2_ensureBranch]

theorem lookup2_initBranches (c : Config) (b n : String) :
    lookup2 (initBranches c) b n = none := by
  unfold initBranches
  rw [foldl_ensureBranch_lookup2]
  rfl

theorem initBranches_isSome (c : Config) (b : String) :
    (List.lookup b (initBranches c)).isSome = true ↔
      b ∈ c.sources.map (fun s => s.branch) := by
  unfold initBranches
  rw [foldl_ensureBranch_isSome]
  simp [List.lookup]

theorem foldl_setLeaf_isSome (e : Env) :
    ∀ (l : List ConfigSource) (m0 : Meta) (b : String),
    (List.lookup b
      (l.foldl (fun m s => setLeaf m s.branch s.name (e.sha s)) m0)).isSome =
      (List.lookup b m0).isSome := by
  intro l
  induction l with
  | nil => intro m0 b; rfl
  | cons s rest ih =>
    intro m0 b
    rw [List.foldl_cons, ih, isSome_lookup_setLeaf]

theorem foldl_setLeaf_facts (e : Env) :
    ∀ (l : List ConfigSource) (m0 : Meta),
    (∀ s ∈ l, (List.lookup s.branch m0).isSome = true) →
    (l.map fun s => (s.branch, s.name)).Nodup →
    ((∀ s ∈ l, lookup2
        (l.foldl (fun m s2 => setLeaf m s2.branch s2.name (e.sha s2)) m0)
        s.branch s.name = some (e.sha s)) ∧
     (∀ b n, (b, n) ∉ l.map (fun s => (s.branch, s.name)) →
       lookup2 (l.foldl (fun m s2 => setLeaf m s2.branch s2.name (e.sha s2)) m0)
         b n = lookup2 m0 b n)) := by
  intro l
  induction l with
  | nil =>
    intro m0 _ _
    exact ⟨by simp, fun b n _ => rfl⟩
  | cons s rest ih =>
    intro m0 hmem hnodup
    have hs : (List.lookup s.branch m0).isSome = true := hmem s (by simp)
    have hmem2 : ∀ s2 ∈ rest,
        (List.lookup s2.branch (setLeaf m0 s.branch s.name (e.sha s))).isSome =
          true := by
      intro s2 hs2
      rw [isSome_lookup_setLeaf]
      exact hmem s2 (by simp [hs2])
    rw [List.map_cons, List.nodup_cons] at hnodup
    obtain ⟨ih1, ih2⟩ :=
      ih (setLeaf m0 s.branch s.name (e.sha s)) hmem2 hnodup.2
    constructor
    · intro s2 hs2
      rcases List.mem_cons.mp hs2 with rfl | h2
      · rw [List.foldl_cons, ih2 s2.branch s2.name hnodup.1,
          lookup2_setLeaf m0 s2.branch s2.name (e.sha s2) hs]
        simp
      · rw [List.foldl_cons]
        exact ih1 s2 h2
    · intro b n hnot
      have hnot2 : (b, n) ∉ rest.map (fun s2 => (s2.branch, s2.name)) :=
        fun hc => hnot (by simp [hc])
      have hnot1 : ¬ (b = s.branch ∧ n = s.name) := by
        rintro ⟨rfl, rfl⟩
        exact hnot (by simp)
      rw [List.foldl_cons, ih2 b n hnot2,
        lookup2_setLeaf m0 s.branch s.name (e.sha s) hs, if_neg hnot1]

theorem latestMeta_facts (e : Env) (c : Config)
    (hpairs : (c.sources.map fun s => (s.branch, s.name)).Nodup) :
    (∀ s ∈ c.sources,
      lookup2 (latestMeta e c) s.branch s.name = some (e.sha s)) ∧
    (∀ b, (List.lookup b (latestMeta e c)).isSome = true ↔
      b ∈ c.sources.map (fun s => s.branch)) ∧
    (∀ b n, (lookup2 (latestMeta e c) b n).isSome = true ↔
      (b, n) ∈ c.sources.map fun s => (s.branch, s.name)) := by
  have hmem : ∀ s ∈ c.sources,
      (List.lookup s.branch (initBranches c)).isSome = true := by
    intro s hs
    rw [initBranches_isSome]
    exact List.mem_map_of_mem _ hs
  obtain ⟨h1, h2⟩ := foldl_setLeaf_facts e c.sources (initBranches c) hmem hpairs
  unfold latestMeta
  refine ⟨h1, ?_, ?_⟩
  · intro b
    rw [foldl_setLeaf_isSome, initBranches_isSome]
  · intro b n
    constructor
    · intro hbn
      by_contra hc
      rw [h2 b n hc, lookup2_initBranches] at hbn
      simp at hbn
    · intro hbn
      rw [List.mem_map] at hbn
      obtain ⟨s, hs, heq⟩ := hbn
      obtain ⟨rfl, rfl⟩ : s.branch = b ∧ s.name = n :=
        ⟨congrArg Prod.fst heq, congrArg Prod.snd heq⟩
      rw [h1 s hs]
      rfl

/-- C9 (amended): for every configuration whose revision lookups all
succeed and whose descriptors have pairwise-distinct
`(branch, repositoryName)` pairs, `fetchLatestMeta` returns a manifest
holding exactly the leaf `[branch][repositoryName] = resolved revision`
for each descriptor and no other key at either level; descriptors
sharing a branch are merged into one branch record without overwriting
each other, because every branch record is installed synchronously
(`initBranches`) before any lookup is awaited.  (Without the
distinct-pair hypothesis the claim fails: two descriptors with the same
branch and repository name collapse into one leaf — see the
counterexample.) -/
theorem fetchLatestMeta_one_leaf_per_source (e : Env) (c : Config)
    (hok : ∀ s ∈ c.sources, e.shaStatus s = 200)
    (hpairs : (c.sources.map fun s => (s.branch, s.name)).Nodup) :
    fetchLatestMeta e c = .ok (latestMeta e c) ∧
    (∀ s ∈ c.sources,
      lookup2 (latestMeta e c) s.branch s.name = some (e.sha s)) ∧
    (∀ b, (List.lookup b (latestMeta e c)).isSome = true ↔
      b ∈ c.sources.map (fun s => s.branch)) ∧
    (∀ b n, (lookup2 (latestMeta e c) b n).isSome = true ↔
      (b, n) ∈ c.sources.map fun s => (s.branch, s.name)) := by
  obtain ⟨h1, h2, h3⟩ := latestMeta_facts e c hpairs
  exact ⟨fetchLatestMeta_ok e c hok, h1, h2, h3⟩

def srcC9a : ConfigSource := ⟨"onlyoffice", "r1", "master", "src/index.ts"⟩

def srcC9b : ConfigSource := ⟨"onlyoffice", "r2", "master", "src/index.ts"⟩

/-- Two descriptors sharing the branch `master` with distinct names. -/
def cfgC9m : Config := ⟨⟨"m", "m", "dist", "meta.json"⟩, [srcC9a, srcC9b]⟩

def envC9m : Env :=
  ⟨fun _ => 200, fun s => s.name ++ "-sha", 404, .obj [],
   fun _ => .close 0, fun _ => some "doc", fun _ => false⟩

/-- Witness for the amended C9: two descriptors sharing one branch merge
into a single branch record, one leaf each. -/
theorem fetchLatestMeta_one_leaf_per_source_witness :
    fetchLatestMeta envC9m cfgC9m = .ok (latestMeta envC9m cfgC9m) ∧
    (∀ s ∈ cfgC9m.sources, lookup2 (latestMeta envC9m cfgC9m)
      s.branch s.name = some (envC9m.sha s)) ∧
    (∀ b, (List.lookup b (latestMeta envC9m cfgC9m)).isSome = true ↔
      b ∈ cfgC9m.sources.map (fun s => s.branch)) ∧
    (∀ b n, (lookup2 (latestMeta envC9m cfgC9m) b n).isSome = true ↔
      (b, n) ∈ cfgC9m.sources.map fun s => (s.branch, s.name)) :=
  fetchLatestMeta_one_leaf_per_source envC9m cfgC9m
    (by intro s _; rfl) (by decide)

def srcC9c : ConfigSource := ⟨"o1", "r", "b", "src/index.ts"⟩

def srcC9d : ConfigSource := ⟨"o2", "r", "b", "src/index.ts"⟩

/-- Two DISTINCT descriptors — different owners, per the data model's
`(owner, repositoryName, branch)` uniqueness key — that share the same
`(branch, repositoryName)` pair. -/
def cfgC9 : Config := ⟨⟨"m", "m", "dist", "meta.json"⟩, [srcC9c, srcC9d]⟩

def envC9 : Env :=
  ⟨fun _ => 200, fun s => if s.owner = "o1" then "AAA" else "BBB", 404,
   .obj [], fun _ => .close 0, fun _ => some "doc", fun _ => false⟩

/-- C9 counterexample: both lookups succeed, yet the two descriptors
collapse into a SINGLE leaf — `srcC9c`'s resolved revision `"AAA"` is
overwritten by its sibling's `"BBB"` (both assignments target
`m["b"]["r"]`) — so the manifest does not hold one leaf entry per
Source Descriptor with that descriptor's revision, as the claim states
for every configuration. -/
theorem fetchLatestMeta_duplicate_pair_collapse :
    cfgC9.sources.length = 2 ∧
    envC9.shaStatus srcC9c = 200 ∧
    envC9.shaStatus srcC9d = 200 ∧
    envC9.sha srcC9c = "AAA" ∧
    fetchLatestMeta envC9 cfgC9 = .ok [("b", [("r", "BBB")])] :=
  ⟨rfl, rfl, rfl, rfl, rfl⟩

/-- The number of `writeFile` effects in `tr` targeting path `p`. -/
def countWrites (tr : List Eff) (p : FsPath) : Nat :=
  tr.countP fun ef =>
    match ef with
    | Eff.writeFileE q _ => q == p
    | _ => false

theorem countWrites_append (tr1 tr2 : List Eff) (p : FsPath) :
    countWrites (tr1 ++ tr2) p = countWrites tr1 p + countWrites tr2 p := by
  unfold countWrites
  exact List.countP_append _ tr1 tr2

theorem countWrites_flatten (L : List (List Eff)) (p : FsPath) :
    countWrites L.flatten p = (L.map fun tr => countWrites tr p).sum := by
  unfold countWrites
  rw [List.countP_flatten]

theorem artifactPath_inj (dd : FsPath) (b1 n1 b2 n2 : String) :
    ((dd ++ [b1]) ++ [n1] = (dd ++ [b2]) ++ [n2]) ↔ (b1 = b2 ∧ n1 = n2) := by
  constructor
  · intro h
    rw [List.append_assoc, List.append_assoc] at h
    have h2 := List.append_cancel_left h
    simpa using h2
  · rintro ⟨rfl, rfl⟩
    rfl

theorem countWrites_runSource (e : Env) (dd td : FsPath) (s' : ConfigSource)
    (code : Int) (doc : String) (h1 : e.cloneEvent s' = .close code)
    (h2 : e.convertResult s' = some doc) (p : FsPath) :
    countWrites (runSource e dd td s').2 p =
      if ((dd ++ [s'.branch]) ++ [s'.name ++ ".json"]) = p then 1 else 0 := by
  rw [runSource_ok e dd td s' code doc h1 h2]
  unfold countWrites
  rcases hx : e.fsExists (dd ++ [s'.branch]) with _ | _ <;>
    simp [List.countP_cons, List.countP_append]

theorem sum_countWrites_artifact (e : Env) (dd td : FsPath)
    (s : ConfigSource) :
    ∀ (l : List ConfigSource),
    (∀ s' ∈ l, (∃ code, e.cloneEvent s' = .close code) ∧
      (∃ doc, e.convertResult s' = some doc)) →
    (l.map fun s' => s'.branch).Nodup →
    s ∈ l →
    ((l.map fun s' => countWrites (runSource e dd td s').2
        ((dd ++ [s.branch]) ++ [s.name ++ ".json"])).sum = 1) := by
  intro l
  induction l with
  | nil =>
    intro _ _ h
    simp at h
  | cons s0 rest ih =>
    intro hok hnodup hmem
    rw [List.map_cons, List.sum_cons]
    obtain ⟨⟨code0, hc0⟩, ⟨doc0, hd0⟩⟩ := hok s0 (by simp)
    rw [List.map_cons, List.nodup_cons] at hnodup
    rcases List.mem_cons.mp hmem with rfl | hmem2
    · rw [countWrites_runSource e dd td s code0 doc0 hc0 hd0, if_pos rfl]
      have hzero : (rest.map fun s' => countWrites (runSource e dd td s').2
          ((dd ++ [s.branch]) ++ [s.name ++ ".json"])).sum = 0 := by
        apply List.sum_eq_zero
        intro x hx
        rw [List.mem_map] at hx
        obtain ⟨s', hs', rfl⟩ := hx
        obtain ⟨⟨code', hc'⟩, ⟨doc', hd'⟩⟩ := hok s' (by simp [hs'])
        rw [countWrites_runSource e dd td s' code' doc' hc' hd', if_neg]
        intro hcontra
        have hbr := ((artifactPath_inj dd _ _ _ _).mp hcontra).1
        exact hnodup.1 (hbr ▸ List.mem_map_of_mem _ hs')
      rw [hzero]
    · have hne : ¬ ((dd ++ [s0.branch]) ++ [s0.name ++ ".json"] =
          (dd ++ [s.branch]) ++ [s.name ++ ".json"]) := by
        intro hcontra
        have hbr := ((artifactPath_inj dd _ _ _ _).mp hcontra).1
        exact hnodup.1 (hbr.symm ▸ List.mem_map_of_mem _ hmem2)
      rw [countWrites_runSource e dd td s0 code0 doc0 hc0 hd0, if_neg hne,
        ih (fun s' hs' => hok s' (by simp [hs'])) hnodup.2 hmem2]

theorem manifestPath_ne_artifactPath (dd : FsPath) (f b n : String) :
    ¬ ((dd ++ [b]) ++ [n] = dd ++ [f]) := by
  intro h
  apply_fun List.length at h
  simp at h

/-- C8: on a fully successful run past the change gate (all lookups 200,
every clone resolves, every extraction yields a document, branches
pairwise distinct — as any actually-successful run has, since two
sources sharing a branch would collide in `mkdir(td/branch)`), `build`
succeeds, writes exactly one Output Artifact per Source Descriptor at
`{dist}/{branch}/{name}.json`, performs exactly one write to the
manifest path `{dist}/{meta.file}`, that write carrying the
pretty-printed 2-space-indent JSON of the resolved manifest, which maps
each source's branch and name to its resolved revision. -/
theorem build_success_artifacts (e : Env) (c : Config) (latest : Meta)
    (current : JSValue)
    (hl : fetchLatestMeta e c = .ok latest)
    (hc : fetchCurrentMeta e = .ok current)
    (hg : deepEqual current (metaToJS latest) = some false)
    (hclone : ∀ s ∈ c.sources, ∃ code, e.cloneEvent s = .close code)
    (hconv : ∀ s ∈ c.sources, ∃ doc, e.convertResult s = some doc)
    (hbr : (c.sources.map fun s => s.branch).Nodup) :
    (build e c).1 = .ok () ∧
    (∀ s ∈ c.sources, countWrites (build e c).2
      ((distDir rootDir ++ [s.branch]) ++ [s.name ++ ".json"]) = 1) ∧
    countWrites (build e c).2 (distDir rootDir ++ [c.meta.file]) = 1 ∧
    Eff.writeFileE (distDir rootDir ++ [c.meta.file])
      (jsonStringify2 (metaToJS latest)) ∈ (build e c).2 ∧
    (∀ s ∈ c.sources, lookup2 latest s.branch s.name = some (e.sha s)) := by
  have hall : ∀ r ∈ c.sources.map (runSource e (distDir rootDir) createTempDir),
      r.1 = .ok () := by
    intro r hr
    rw [List.mem_map] at hr
    obtain ⟨s, hs, rfl⟩ := hr
    exact (runSource_ok_iff e (distDir rootDir) createTempDir s).mpr
      ⟨hclone s hs, hconv s hs⟩
  have hfe := (firstError_eq_none_iff _).mpr hall
  have heq := build_proceed_ok e c latest current hl hc hg hfe
  obtain ⟨h200, hlat⟩ := fetchLatestMeta_ok_inv e c latest hl
  have hpairs : (c.sources.map fun s => (s.branch, s.name)).Nodup := by
    apply List.Nodup.of_map Prod.fst
    simpa [List.map_map, Function.comp_def] using hbr
  refine ⟨by rw [heq], ?_, ?_, ?_, ?_⟩
  · intro s hs
    rw [heq]
    rw [countWrites_append, countWrites_append, countWrites_append,
      countWrites_append]
    have c1 : countWrites (if e.fsExists (distDir rootDir) then []
        else [Eff.mkdirE (distDir rootDir)])
        ((distDir rootDir ++ [s.branch]) ++ [s.name ++ ".json"]) = 0 := by
      rcases hx : e.fsExists (distDir rootDir) with _ | _ <;>
        simp [countWrites, List.countP_cons]
    have c3 : countWrites
        ((c.sources.map (runSource e (distDir rootDir) createTempDir)).map
          Prod.snd).flatten
        ((distDir rootDir ++ [s.branch]) ++ [s.name ++ ".json"]) = 1 := by
      rw [countWrites_flatten, List.map_map, List.map_map]
      exact sum_countWrites_artifact e (distDir rootDir) createTempDir s
        c.sources (fun s' hs' => ⟨hclone s' hs', hconv s' hs'⟩) hbr hs
    have c5 : countWrites (writeMeta c (distDir rootDir) latest)
        ((distDir rootDir ++ [s.branch]) ++ [s.name ++ ".json"]) = 0 := by
      have hne := manifestPath_ne_artifactPath (distDir rootDir) c.meta.file
        s.branch (s.name ++ ".json")
      have hne2 : ¬ (distDir rootDir ++ [c.meta.file] =
          (distDir rootDir ++ [s.branch]) ++ [s.name ++ ".json"]) :=
        fun h => hne h.symm
      simp [writeMeta, countWrites, List.countP_cons, hne2]
    rw [c1, c3, c5]
    simp [countWrites]
  · rw [heq]
    rw [countWrites_append, countWrites_append, countWrites_append,
      countWrites_append]
    have c1 : countWrites (if e.fsExists (distDir rootDir) then []
        else [Eff.mkdirE (distDir rootDir)])
        (distDir rootDir ++ [c.meta.file]) = 0 := by
      rcases hx : e.fsExists (distDir rootDir) with _ | _ <;>
        simp [countWrites, List.countP_cons]
    have c3 : countWrites
        ((c.sources.map (runSource e (distDir rootDir) createTempDir)).map
          Prod.snd).flatten
        (distDir rootDir ++ [c.meta.file]) = 0 := by
      rw [countWrites_flatten, List.map_map, List.map_map]
      apply List.sum_eq_zero
      intro x hx
      rw [List.mem_map] at hx
      obtain ⟨s', hs', rfl⟩ := hx
      obtain ⟨code', hc'⟩ := hclone s' hs'
      obtain ⟨doc', hd'⟩ := hconv s' hs'
      simp only [Function.comp_apply]
      rw [countWrites_runSource e (distDir rootDir) createTempDir s' code' doc'
          hc' hd', if_neg (manifestPath_ne_artifactPath (distDir rootDir)
          c.meta.file s'.branch (s'.name ++ ".json"))]
    have c5 : countWrites (writeMeta c (distDir rootDir) latest)
        (distDir rootDir ++ [c.meta.file]) = 1 := by
      simp [writeMeta, countWrites, List.countP_cons]
    rw [c1, c3, c5]
    simp [countWrites]
  · rw [heq]
    simp [writeMeta]
  · intro s hs
    rw [hlat]
    exact (latestMeta_facts e c hpairs).1 s hs

/-- Witness for C8 at the spec's two-descriptor scenario: both sources
resolve, clone and extract; exactly one artifact per descriptor and one
manifest write result. -/
theorem build_success_artifacts_witness :
    (build envC4ok cfgC4).1 = .ok () ∧
    (∀ s ∈ cfgC4.sources, countWrites (build envC4ok cfgC4).2
      ((distDir rootDir ++ [s.branch]) ++ [s.name ++ ".json"]) = 1) ∧
    countWrites (build envC4ok cfgC4).2
      (distDir rootDir ++ [cfgC4.meta.file]) = 1 ∧
    Eff.writeFileE (distDir rootDir ++ [cfgC4.meta.file])
      (jsonStringify2 (metaToJS latC4)) ∈ (build envC4ok cfgC4).2 ∧
    (∀ s ∈ cfgC4.sources,
      lookup2 latC4 s.branch s.name = some (envC4ok.sha s)) :=
  build_success_artifacts envC4ok cfgC4 latC4 (.obj []) rfl rfl
    (deepEqual_empty_vs_nonempty latC4 (by decide))
    (fun _ _ => ⟨0, rfl⟩) (fun _ _ => ⟨"doc", rfl⟩) (by decide)
